import Mathlib

/-!
Shallow embedding of the `limit-order-book` repository (blaahhrrgg/limit-order-book).

The repository contains two generations of limit-order-book implementations:

* the top-level modules `array_deque.py` (`ArrayDequeLimitOrderBook`),
  `hash_deque.py` (`HashDequeLimitOrderBook`) and `balanced_tree.py`
  (`BalancedTreeDequeLimitOrderBook`), each with its own `add`/`cancel`
  matching loops, and
* the refactored `deque_lob` package, in which
  `base_deque_limit_order_book.py` holds a shared `add`/`cancel` and
  `deque_lob/array_deque.py` supplies the array-backed price index and the
  best-price update helpers.

Python integers are modelled as `Int`, Python lists as `List` with Python's
indexing convention (negative indices wrap once; out-of-range raises
`IndexError`), Python dicts and the AVL trees of `bintrees` as association
lists, and `collections.deque` as `List` (head = left end).  Exceptions are
modelled with `Except PyErr`; unbounded `while` loops take explicit fuel and
report exhaustion as the distinguished error `PyErr.outOfFuel`.

`uuid4` order identifiers are modelled as caller-supplied (hash variant) or
counter-generated (array/tree variants) natural numbers.  The `_id` field of
`MatchedOrder` plays no role in any claim (the spec compares match records
with ids ignored) and is omitted from the `MatchedOrder` record.
-/

set_option linter.unusedVariables false

deriving instance DecidableEq for Except

namespace LOBModel

/-- The `Direction` enum from `order.py`. -/
inductive Direction where
  | Buy : Direction
  | Sell : Direction
deriving DecidableEq, Repr

/-- The `LimitOrder` dataclass from `order.py` (`trader_id`, `price`, `quantity`,
`direction`, and the uuid id modelled as a `Nat`). -/
structure LimitOrder where
  trader_id : Int
  price : Int
  quantity : Int
  direction : Direction
  id : Nat
deriving DecidableEq, Repr

/-- The `MatchedOrder` dataclass from `order.py`, with the uuid `_id` omitted
(no claim depends on match ids). -/
structure MatchedOrder where
  buy_trader_id : Int
  sell_trader_id : Int
  price : Int
  quantity : Int
deriving DecidableEq, Repr

/-- Python exceptions that the modelled code can raise, plus fuel
exhaustion of the model's bounded loops. -/
inductive PyErr where
  | indexError : PyErr
  | keyError : PyErr
  | valueError : PyErr
  | outOfFuel : PyErr
deriving DecidableEq, Repr

/-- Python list-index resolution: an index `i` into a list of length `n`
is valid if `-n ≤ i < n`; negative indices wrap once. -/
def pyIndex (n : Nat) (i : Int) : Option Nat :=
  if 0 ≤ i then
    if i < (n : Int) then some i.toNat else none
  else
    let j : Int := (n : Int) + i
    if 0 ≤ j then some j.toNat else none

/-- Python `xs[i]` on a list. -/
def pyGet {α : Type} (xs : List α) (i : Int) : Option α :=
  (pyIndex xs.length i).bind fun k => xs.get? k

/-- Python `xs[i] = a` on a list (in-place assignment, modelled functionally). -/
def pySet {α : Type} (xs : List α) (i : Int) (a : α) : Option (List α) :=
  (pyIndex xs.length i).map fun k => xs.set k a

/-- Result of draining one price level against an incoming order: the
matches emitted (in execution order), the queue left at the level, the
incoming order's remaining quantity, and whether the code hit its
`return None` (incoming order completely matched). -/
structure LevelResult where
  fills : List MatchedOrder
  queue : List LimitOrder
  qty : Int
  done : Bool
deriving DecidableEq, Repr

/-! ### Inner matching loops (`while entries:`), one per variant and side

Each function is a line-by-line translation of the corresponding inner
`while` loop over the deque `entries`, with `entry = entries[0]` and
`entries.popleft()` realised by structural recursion on the list. -/

/-- Inner loop of `ArrayDequeLimitOrderBook.add` (top-level
`array_deque.py`, Buy branch, lines 86-124).  Note that both `execute`
calls in this branch record `price=price` — the *incoming* order's
price — and the full-fill branch records `quantity=entry.quantity`. -/
def arrayV1BuyLevel (trader_id price : Int) (quantity : Int) :
    List LimitOrder → LevelResult
  | [] => ⟨[], [], quantity, false⟩
  | entry :: rest =>
    if entry.quantity < quantity then
      let r := arrayV1BuyLevel trader_id price (quantity - entry.quantity) rest
      ⟨⟨trader_id, entry.trader_id, price, entry.quantity⟩ :: r.fills,
        r.queue, r.qty, r.done⟩
    else
      if entry.quantity > quantity then
        ⟨[⟨trader_id, entry.trader_id, price, quantity⟩],
          { entry with quantity := entry.quantity - quantity } :: rest,
          quantity, true⟩
      else
        ⟨[⟨trader_id, entry.trader_id, price, quantity⟩], rest, quantity, true⟩

/-- Inner loop of `ArrayDequeLimitOrderBook.add` (top-level
`array_deque.py`, Sell branch, lines 153-192).  In the `else` branch the
source decrements `entry.quantity` *before* calling `execute`, so the
partial-fill match is recorded with `quantity=entry.quantity` *after* the
decrement (i.e. `entry.quantity - quantity`), at `price=entry.price`. -/
def arrayV1SellLevel (trader_id : Int) (quantity : Int) :
    List LimitOrder → LevelResult
  | [] => ⟨[], [], quantity, false⟩
  | entry :: rest =>
    if entry.quantity < quantity then
      let r := arrayV1SellLevel trader_id (quantity - entry.quantity) rest
      ⟨⟨entry.trader_id, trader_id, entry.price, entry.quantity⟩ :: r.fills,
        r.queue, r.qty, r.done⟩
    else
      if entry.quantity > quantity then
        ⟨[⟨entry.trader_id, trader_id, entry.price, entry.quantity - quantity⟩],
          { entry with quantity := entry.quantity - quantity } :: rest,
          quantity, true⟩
      else
        ⟨[⟨entry.trader_id, trader_id, entry.price, entry.quantity⟩],
          rest, quantity, true⟩

/-- Inner loop of `HashDequeLimitOrderBook.add` (`hash_deque.py`, Buy
branch, lines 52-90).  The full-fill branch records the match at
`price=entry.price`; the `else` branch records it at
`price=limit_order.price` with `quantity=limit_order.quantity`. -/
def hashV1BuyLevel (trader_id lo_price : Int) (quantity : Int) :
    List LimitOrder → LevelResult
  | [] => ⟨[], [], quantity, false⟩
  | entry :: rest =>
    if entry.quantity < quantity then
      let r := hashV1BuyLevel trader_id lo_price (quantity - entry.quantity) rest
      ⟨⟨trader_id, entry.trader_id, entry.price, entry.quantity⟩ :: r.fills,
        r.queue, r.qty, r.done⟩
    else
      if entry.quantity > quantity then
        ⟨[⟨trader_id, entry.trader_id, lo_price, quantity⟩],
          { entry with quantity := entry.quantity - quantity } :: rest,
          quantity, true⟩
      else
        ⟨[⟨trader_id, entry.trader_id, lo_price, quantity⟩], rest, quantity, true⟩

/-- Inner loop of `HashDequeLimitOrderBook.add` (`hash_deque.py`, Sell
branch, lines 116-155). -/
def hashV1SellLevel (trader_id lo_price : Int) (quantity : Int) :
    List LimitOrder → LevelResult
  | [] => ⟨[], [], quantity, false⟩
  | entry :: rest =>
    if entry.quantity < quantity then
      let r := hashV1SellLevel trader_id lo_price (quantity - entry.quantity) rest
      ⟨⟨entry.trader_id, trader_id, entry.price, entry.quantity⟩ :: r.fills,
        r.queue, r.qty, r.done⟩
    else
      if entry.quantity > quantity then
        ⟨[⟨entry.trader_id, trader_id, lo_price, quantity⟩],
          { entry with quantity := entry.quantity - quantity } :: rest,
          quantity, true⟩
      else
        ⟨[⟨entry.trader_id, trader_id, lo_price, quantity⟩], rest, quantity, true⟩

/-- Inner loop of `BaseDequeLimitOrderBook.add`
(`deque_lob/base_deque_limit_order_book.py`, Buy branch, lines 82-120).
Every match is recorded at `price=entry.price`; the `else` branch uses
`quantity=limit_order.quantity` (the incoming remaining quantity, which
the preceding `entry` mutation does not change). -/
def v2BuyLevel (trader_id : Int) (quantity : Int) :
    List LimitOrder → LevelResult
  | [] => ⟨[], [], quantity, false⟩
  | entry :: rest =>
    if entry.quantity < quantity then
      let r := v2BuyLevel trader_id (quantity - entry.quantity) rest
      ⟨⟨trader_id, entry.trader_id, entry.price, entry.quantity⟩ :: r.fills,
        r.queue, r.qty, r.done⟩
    else
      if entry.quantity > quantity then
        ⟨[⟨trader_id, entry.trader_id, entry.price, quantity⟩],
          { entry with quantity := entry.quantity - quantity } :: rest,
          quantity, true⟩
      else
        ⟨[⟨trader_id, entry.trader_id, entry.price, quantity⟩],
          rest, quantity, true⟩

/-- Inner loop of `BaseDequeLimitOrderBook.add`
(`deque_lob/base_deque_limit_order_book.py`, Sell branch, lines 143-181). -/
def v2SellLevel (trader_id : Int) (quantity : Int) :
    List LimitOrder → LevelResult
  | [] => ⟨[], [], quantity, false⟩
  | entry :: rest =>
    if entry.quantity < quantity then
      let r := v2SellLevel trader_id (quantity - entry.quantity) rest
      ⟨⟨entry.trader_id, trader_id, entry.price, entry.quantity⟩ :: r.fills,
        r.queue, r.qty, r.done⟩
    else
      if entry.quantity > quantity then
        ⟨[⟨entry.trader_id, trader_id, entry.price, quantity⟩],
          { entry with quantity := entry.quantity - quantity } :: rest,
          quantity, true⟩
      else
        ⟨[⟨entry.trader_id, trader_id, entry.price, quantity⟩],
          rest, quantity, true⟩

/-! ### Top-level `array_deque.py`: `ArrayDequeLimitOrderBook` -/

/-- State of `ArrayDequeLimitOrderBook`.  `price_queues` is the Python list
built by `[deque() for _ in range(self.max_price)]` — note it has
`max_price` slots, indices `0 .. max_price - 1`.  `next_id` models the
uuid generator for orders created inside `add`. -/
structure ArrayV1Book where
  max_price : Int
  bid_max : Int
  ask_min : Int
  orders : List (Nat × LimitOrder)
  price_queues : List (List LimitOrder)
  _matches : List MatchedOrder
  next_id : Nat
deriving DecidableEq, Repr

/-- Model of `ArrayDequeLimitOrderBook.__init__`. -/
def arrayV1Init (max_price : Int) : ArrayV1Book :=
  { max_price := max_price
    bid_max := 0
    ask_min := max_price + 1
    orders := []
    price_queues := List.replicate max_price.toNat []
    _matches := []
    next_id := 0 }

/-- Model of `ArrayDequeLimitOrderBook._add_order_to_queue` followed by the
creation of the `LimitOrder` in `add`: registers the order in the id map
and appends it to the queue at its price.  The source assigns
`self.orders[limit_order.id] = limit_order` *before* the queue lookup, so
an out-of-range price raises `IndexError` only at the append. -/
def arrayV1Enqueue (b : ArrayV1Book) (lo : LimitOrder) :
    Except PyErr ArrayV1Book :=
  let orders := (lo.id, lo) :: b.orders
  match pyGet b.price_queues lo.price with
  | none => .error .indexError
  | some q =>
    match pySet b.price_queues lo.price (q ++ [lo]) with
    | none => .error .indexError
    | some pqs => .ok { b with orders := orders, price_queues := pqs }

/-- Outer `while price >= self.ask_min` loop of the Buy branch of
`ArrayDequeLimitOrderBook.add` (lines 80-145), including the resting path
once the loop exits. -/
def arrayV1AddBuy (trader_id quantity price : Int) :
    Nat → ArrayV1Book → Except PyErr (ArrayV1Book × Option LimitOrder)
  | 0, _ => .error .outOfFuel
  | fuel + 1, b =>
    if price ≥ b.ask_min then
      match pyGet b.price_queues b.ask_min with
      | none => .error .indexError
      | some entries =>
        let r := arrayV1BuyLevel trader_id price quantity entries
        match pySet b.price_queues b.ask_min r.queue with
        | none => .error .indexError
        | some pqs =>
          let b1 := { b with price_queues := pqs, _matches := b._matches ++ r.fills }
          if r.done then .ok (b1, none)
          else arrayV1AddBuy trader_id r.qty price fuel
            { b1 with ask_min := b1.ask_min + 1 }
    else
      let lo : LimitOrder := ⟨trader_id, price, quantity, .Buy, b.next_id⟩
      match arrayV1Enqueue { b with next_id := b.next_id + 1 } lo with
      | .error e => .error e
      | .ok b1 =>
        .ok ({ b1 with bid_max := if b1.bid_max < price then price else b1.bid_max },
          some lo)

/-- Outer `while price <= self.bid_max` loop of the Sell branch of
`ArrayDequeLimitOrderBook.add` (lines 149-213), including the resting
path once the loop exits. -/
def arrayV1AddSell (trader_id quantity price : Int) :
    Nat → ArrayV1Book → Except PyErr (ArrayV1Book × Option LimitOrder)
  | 0, _ => .error .outOfFuel
  | fuel + 1, b =>
    if price ≤ b.bid_max then
      match pyGet b.price_queues b.bid_max with
      | none => .error .indexError
      | some entries =>
        let r := arrayV1SellLevel trader_id quantity entries
        match pySet b.price_queues b.bid_max r.queue with
        | none => .error .indexError
        | some pqs =>
          let b1 := { b with price_queues := pqs, _matches := b._matches ++ r.fills }
          if r.done then .ok (b1, none)
          else arrayV1AddSell trader_id r.qty price fuel
            { b1 with bid_max := b1.bid_max - 1 }
    else
      let lo : LimitOrder := ⟨trader_id, price, quantity, .Sell, b.next_id⟩
      match arrayV1Enqueue { b with next_id := b.next_id + 1 } lo with
      | .error e => .error e
      | .ok b1 =>
        .ok ({ b1 with ask_min := if b1.ask_min > price then price else b1.ask_min },
          some lo)

/-- Model of `ArrayDequeLimitOrderBook.add`. -/
def arrayV1Add (fuel : Nat) (b : ArrayV1Book) (trader_id : Int)
    (direction : Direction) (quantity price : Int) :
    Except PyErr (ArrayV1Book × Option LimitOrder) :=
  match direction with
  | .Buy => arrayV1AddBuy trader_id quantity price fuel b
  | .Sell => arrayV1AddSell trader_id quantity price fuel b

/-! ### `hash_deque.py`: `HashDequeLimitOrderBook`

The `price_queues` dict is modelled as an association list (insertion
order preserved, keys unique).  `dict.get(k, default)` returning a fresh
deque when the key is absent is modelled by `getD`; the in-place mutation
of the deque object writes back only when the key was present. -/

/-- State of `HashDequeLimitOrderBook`. -/
structure HashV1Book where
  max_price : Int
  bid_max : Int
  ask_min : Int
  orders : List (Nat × LimitOrder)
  price_queues : List (Int × List LimitOrder)
  _matches : List MatchedOrder
deriving DecidableEq, Repr

/-- Model of `HashDequeLimitOrderBook.__init__`. -/
def hashV1Init (max_price : Int) : HashV1Book :=
  { max_price := max_price
    bid_max := 0
    ask_min := max_price + 1
    orders := []
    price_queues := []
    _matches := [] }

/-- In-place mutation of the deque fetched by
`self.price_queues.get(price, PriceDeque(...))`: if `price` is a key of
the dict the mutated queue is the dict value; otherwise the default deque
was a fresh object and the dict is unchanged. -/
def hashV1WriteBack (d : List (Int × List LimitOrder)) (price : Int)
    (q : List LimitOrder) : List (Int × List LimitOrder) :=
  d.map fun kv => if kv.1 = price then (price, q) else kv

/-- Model of `HashDequeLimitOrderBook._add_order_to_queue`: register in the id map
and `setdefault(price, PriceDeque(price)).append(limit_order)`. -/
def hashV1Enqueue (b : HashV1Book) (lo : LimitOrder) : HashV1Book :=
  { b with
    orders := (lo.id, lo) :: b.orders
    price_queues :=
      match b.price_queues.lookup lo.price with
      | some q => hashV1WriteBack b.price_queues lo.price (q ++ [lo])
      | none => b.price_queues ++ [(lo.price, [lo])] }

/-- Outer `while limit_order.price >= self.ask_min` loop of the Buy
branch of `HashDequeLimitOrderBook.add` (lines 44-105), threading the
in-place mutation of `limit_order.quantity`, plus the resting path. -/
def hashV1AddBuy : Nat → HashV1Book → LimitOrder →
    Except PyErr (HashV1Book × LimitOrder)
  | 0, _, _ => .error .outOfFuel
  | fuel + 1, b, lo =>
    if lo.price ≥ b.ask_min then
      let entries := (b.price_queues.lookup b.ask_min).getD []
      let r := hashV1BuyLevel lo.trader_id lo.price lo.quantity entries
      let b1 := { b with
        price_queues := hashV1WriteBack b.price_queues b.ask_min r.queue
        _matches := b._matches ++ r.fills }
      let lo1 := { lo with quantity := r.qty }
      if r.done then .ok (b1, lo1)
      else hashV1AddBuy fuel { b1 with ask_min := b1.ask_min + 1 } lo1
    else
      .ok ({ hashV1Enqueue b lo with
        bid_max := if b.bid_max < lo.price then lo.price else b.bid_max }, lo)

/-- Outer `while limit_order.price <= self.bid_max` loop of the Sell
branch of `HashDequeLimitOrderBook.add` (lines 109-170), plus the resting
path. -/
def hashV1AddSell : Nat → HashV1Book → LimitOrder →
    Except PyErr (HashV1Book × LimitOrder)
  | 0, _, _ => .error .outOfFuel
  | fuel + 1, b, lo =>
    if lo.price ≤ b.bid_max then
      let entries := (b.price_queues.lookup b.bid_max).getD []
      let r := hashV1SellLevel lo.trader_id lo.price lo.quantity entries
      let b1 := { b with
        price_queues := hashV1WriteBack b.price_queues b.bid_max r.queue
        _matches := b._matches ++ r.fills }
      let lo1 := { lo with quantity := r.qty }
      if r.done then .ok (b1, lo1)
      else hashV1AddSell fuel { b1 with bid_max := b1.bid_max - 1 } lo1
    else
      .ok ({ hashV1Enqueue b lo with
        ask_min := if b.ask_min > lo.price then lo.price else b.ask_min }, lo)

/-- Model of `HashDequeLimitOrderBook.add`.  The second component of the result is
the caller's `LimitOrder` object as it stands when `add` returns (its
`quantity` field is mutated in place by the matching loop). -/
def hashV1Add (fuel : Nat) (b : HashV1Book) (lo : LimitOrder) :
    Except PyErr (HashV1Book × LimitOrder) :=
  match lo.direction with
  | .Buy => hashV1AddBuy fuel b lo
  | .Sell => hashV1AddSell fuel b lo

/-- Model of `HashDequeLimitOrderBook.cancel`: look the order up by id
(`KeyError` if absent), `deque.remove` it from the queue at its price
(`ValueError` if not in the queue, identity being id equality per
`LimitOrder.__eq__`), and delete it from the id map. -/
def hashV1Cancel (b : HashV1Book) (order_id : Nat) : Except PyErr HashV1Book :=
  match b.orders.lookup order_id with
  | none => .error .keyError
  | some lo =>
    match b.price_queues.lookup lo.price with
    | none => .error .keyError
    | some q =>
      if q.all fun o => o.id ≠ lo.id then .error .valueError
      else
        .ok { b with
          price_queues :=
            hashV1WriteBack b.price_queues lo.price (q.eraseP fun o => o.id = lo.id)
          orders := b.orders.eraseP fun kv => kv.1 = order_id }

/-! ### Top-level `balanced_tree.py`: `BalancedTreeDequeLimitOrderBook`

A `FastAVLTree` mapping prices to deques is modelled as an association
list with unique keys; `min_item`/`max_item` fold over the keys, so the
model is independent of the tree's internal shape. -/

/-- Minimum key of the tree (`min_item()[0]`), `none` when empty. -/
def treeMinKey (t : List (Int × List LimitOrder)) : Option Int :=
  t.foldl (fun acc kv =>
    match acc with
    | none => some kv.1
    | some m => some (min m kv.1)) none

/-- Maximum key of the tree (`max_item()[0]`), `none` when empty. -/
def treeMaxKey (t : List (Int × List LimitOrder)) : Option Int :=
  t.foldl (fun acc kv =>
    match acc with
    | none => some kv.1
    | some m => some (max m kv.1)) none

/-- Model of `tree.insert(key, value)` (sets the value at the key). -/
def treeInsert (t : List (Int × List LimitOrder)) (k : Int)
    (v : List LimitOrder) : List (Int × List LimitOrder) :=
  if t.any fun kv => kv.1 = k then
    t.map fun kv => if kv.1 = k then (k, v) else kv
  else t ++ [(k, v)]

/-- Model of `tree.remove(key)`. -/
def treeRemove (t : List (Int × List LimitOrder)) (k : Int) :
    List (Int × List LimitOrder) :=
  t.filter fun kv => kv.1 ≠ k

/-- State of `BalancedTreeDequeLimitOrderBook`. -/
structure TreeV1Book where
  max_price : Int
  orders : List (Nat × LimitOrder)
  bids : List (Int × List LimitOrder)
  asks : List (Int × List LimitOrder)
  _matches : List MatchedOrder
  next_id : Nat
deriving DecidableEq, Repr

/-- Model of `BalancedTreeDequeLimitOrderBook.__init__`. -/
def treeV1Init (max_price : Int) : TreeV1Book :=
  { max_price := max_price, orders := [], bids := [], asks := []
    _matches := [], next_id := 0 }

/-- Model of `BalancedTreeDequeLimitOrderBook.best_bid`: max key of the bid tree,
or the sentinel `0` when the bid tree is empty. -/
def treeV1BestBid (b : TreeV1Book) : Int :=
  match treeMaxKey b.bids with
  | none => 0
  | some m => m

/-- Model of `BalancedTreeDequeLimitOrderBook.best_ask`: min key of the ask tree,
or the sentinel `max_price + 1` when the ask tree is empty. -/
def treeV1BestAsk (b : TreeV1Book) : Int :=
  match treeMinKey b.asks with
  | none => b.max_price + 1
  | some m => m

/-- Model of `BalancedTreeDequeLimitOrderBook._add_order_to_queue`. -/
def treeV1Enqueue (b : TreeV1Book) (lo : LimitOrder) : TreeV1Book :=
  let orders := (lo.id, lo) :: b.orders
  match lo.direction with
  | .Buy =>
    { b with
      orders := orders
      bids :=
        match b.bids.lookup lo.price with
        | none => treeInsert b.bids lo.price [lo]
        | some q => treeInsert b.bids lo.price (q ++ [lo]) }
  | .Sell =>
    { b with
      orders := orders
      asks :=
        match b.asks.lookup lo.price with
        | none => treeInsert b.asks lo.price [lo]
        | some q => treeInsert b.asks lo.price (q ++ [lo]) }

/-- Outer loop of the Buy branch of `BalancedTreeDequeLimitOrderBook.add`
(lines 65-127): `while (price >= self.best_ask) and (not
self._asks.is_empty())`, with the inner loop identical to the top-level
array variant's (incoming-price matches); an exhausted level is removed
from the ask tree by `self._asks.remove(self.best_ask)`. -/
def treeV1AddBuy (trader_id quantity price : Int) :
    Nat → TreeV1Book → Except PyErr (TreeV1Book × Option LimitOrder)
  | 0, _ => .error .outOfFuel
  | fuel + 1, b =>
    if price ≥ treeV1BestAsk b ∧ b.asks ≠ [] then
      match b.asks.lookup (treeV1BestAsk b) with
      | none => .error .keyError
      | some entries =>
        let r := arrayV1BuyLevel trader_id price quantity entries
        let b1 := { b with
          asks := treeInsert b.asks (treeV1BestAsk b) r.queue
          _matches := b._matches ++ r.fills }
        if r.done then .ok (b1, none)
        else treeV1AddBuy trader_id r.qty price fuel
          { b1 with asks := treeRemove b1.asks (treeV1BestAsk b1) }
    else
      let lo : LimitOrder := ⟨trader_id, price, quantity, .Buy, b.next_id⟩
      .ok (treeV1Enqueue { b with next_id := b.next_id + 1 } lo, some lo)

/-- Outer loop of the Sell branch of
`BalancedTreeDequeLimitOrderBook.add` (lines 129-192). -/
def treeV1AddSell (trader_id quantity price : Int) :
    Nat → TreeV1Book → Except PyErr (TreeV1Book × Option LimitOrder)
  | 0, _ => .error .outOfFuel
  | fuel + 1, b =>
    if price ≤ treeV1BestBid b ∧ b.bids ≠ [] then
      match b.bids.lookup (treeV1BestBid b) with
      | none => .error .keyError
      | some entries =>
        let r := arrayV1SellLevel trader_id quantity entries
        let b1 := { b with
          bids := treeInsert b.bids (treeV1BestBid b) r.queue
          _matches := b._matches ++ r.fills }
        if r.done then .ok (b1, none)
        else treeV1AddSell trader_id r.qty price fuel
          { b1 with bids := treeRemove b1.bids (treeV1BestBid b1) }
    else
      let lo : LimitOrder := ⟨trader_id, price, quantity, .Sell, b.next_id⟩
      .ok (treeV1Enqueue { b with next_id := b.next_id + 1 } lo, some lo)

/-- Model of `BalancedTreeDequeLimitOrderBook.add`. -/
def treeV1Add (fuel : Nat) (b : TreeV1Book) (trader_id : Int)
    (direction : Direction) (quantity price : Int) :
    Except PyErr (TreeV1Book × Option LimitOrder) :=
  match direction with
  | .Buy => treeV1AddBuy trader_id quantity price fuel b
  | .Sell => treeV1AddSell trader_id quantity price fuel b

/-- Model of `BalancedTreeDequeLimitOrderBook.cancel` (lines 194-213): fetch the
order by id, remove it from the deque at its price on its side
(`deque.remove`, identity by id), and delete it from the id map.  The
price level itself is never removed from the tree. -/
def treeV1Cancel (b : TreeV1Book) (order_id : Nat) : Except PyErr TreeV1Book :=
  match b.orders.lookup order_id with
  | none => .error .keyError
  | some lo =>
    match lo.direction with
    | .Buy =>
      match b.bids.lookup lo.price with
      | none => .error .keyError
      | some q =>
        if q.all fun o => o.id ≠ lo.id then .error .valueError
        else
          .ok { b with
            bids := treeInsert b.bids lo.price (q.eraseP fun o => o.id = lo.id)
            orders := b.orders.eraseP fun kv => kv.1 = order_id }
    | .Sell =>
      match b.asks.lookup lo.price with
      | none => .error .keyError
      | some q =>
        if q.all fun o => o.id ≠ lo.id then .error .valueError
        else
          .ok { b with
            asks := treeInsert b.asks lo.price (q.eraseP fun o => o.id = lo.id)
            orders := b.orders.eraseP fun kv => kv.1 = order_id }

/-! ### `deque_lob`: `BaseDequeLimitOrderBook` + `ArrayDequeLimitOrderBook`

The refactored generation: the matching loop lives in
`base_deque_limit_order_book.py` and calls back into the array index's
`_get_price_level` / `_update_best_ask_price` / `_update_best_bid_price`
(`deque_lob/array_deque.py`).  Here `price_queues` has `max_price + 1`
slots and both sides share the single array. -/

/-- State of the `deque_lob` `ArrayDequeLimitOrderBook`. -/
structure ArrayV2Book where
  max_price : Int
  bid_max : Int
  ask_min : Int
  orders : List (Nat × LimitOrder)
  price_queues : List (List LimitOrder)
  _matches : List MatchedOrder
deriving DecidableEq, Repr

/-- Model of the `deque_lob` `ArrayDequeLimitOrderBook.__init__`: note
`ask_min = max_price` (not `max_price + 1`) and one queue per price in
`range(self.max_price + 1)`. -/
def arrayV2Init (max_price : Int) : ArrayV2Book :=
  { max_price := max_price
    bid_max := 0
    ask_min := max_price
    orders := []
    price_queues := List.replicate (max_price.toNat + 1) []
    _matches := [] }

/-- The `while` loop of `_get_prev_level` after the initial `price -= 1`:
`while (len(self._get_price_level(price)) == 0) and (price > 0): price -= 1`.
The lookup is evaluated before the bound check, so it can raise
`IndexError` on its own. -/
def arrayV2PrevScan (b : ArrayV2Book) : Nat → Int → Except PyErr Int
  | 0, _ => .error .outOfFuel
  | fuel + 1, p =>
    match pyGet b.price_queues p with
    | none => .error .indexError
    | some q =>
      if q = [] ∧ p > 0 then arrayV2PrevScan b fuel (p - 1) else .ok p

/-- Model of the `deque_lob` `ArrayDequeLimitOrderBook._get_prev_level`. -/
def arrayV2PrevLevel (fuel : Nat) (b : ArrayV2Book) (p : Int) :
    Except PyErr Int :=
  arrayV2PrevScan b fuel (p - 1)

/-- Model of the `deque_lob` `ArrayDequeLimitOrderBook._update_best_ask_price`.  The
starting price is `min([price, self.best_ask]) if price else
self.best_ask` (Python truthiness: `price = 0` or `price = None` both
fall back to `best_ask`).  If the queue there is non-empty, `ask_min`
becomes the starting price; otherwise the source sets it to
`self._get_prev_level(starting_price)` — a *downward* scan. -/
def arrayV2UpdateBestAsk (fuel : Nat) (b : ArrayV2Book) (price : Option Int) :
    Except PyErr ArrayV2Book :=
  let starting : Int :=
    match price with
    | some p => if p ≠ 0 then min p b.ask_min else b.ask_min
    | none => b.ask_min
  match pyGet b.price_queues starting with
  | none => .error .indexError
  | some q =>
    if q ≠ [] then .ok { b with ask_min := starting }
    else
      match arrayV2PrevLevel fuel b starting with
      | .error e => .error e
      | .ok p1 => .ok { b with ask_min := p1 }

/-- Model of the `deque_lob` `ArrayDequeLimitOrderBook._update_best_bid_price`:
starting price `max([price, self.best_bid]) if price else self.best_bid`,
falling back to `self._get_prev_level(starting_price)` when the queue at
the starting price is empty. -/
def arrayV2UpdateBestBid (fuel : Nat) (b : ArrayV2Book) (price : Option Int) :
    Except PyErr ArrayV2Book :=
  let starting : Int :=
    match price with
    | some p => if p ≠ 0 then max p b.bid_max else b.bid_max
    | none => b.bid_max
  match pyGet b.price_queues starting with
  | none => .error .indexError
  | some q =>
    if q ≠ [] then .ok { b with bid_max := starting }
    else
      match arrayV2PrevLevel fuel b starting with
      | .error e => .error e
      | .ok p1 => .ok { b with bid_max := p1 }

/-- Model of the `deque_lob` `ArrayDequeLimitOrderBook._add_order_to_queue`. -/
def arrayV2Enqueue (b : ArrayV2Book) (lo : LimitOrder) :
    Except PyErr ArrayV2Book :=
  let orders := (lo.id, lo) :: b.orders
  match pyGet b.price_queues lo.price with
  | none => .error .indexError
  | some q =>
    match pySet b.price_queues lo.price (q ++ [lo]) with
    | none => .error .indexError
    | some pqs => .ok { b with orders := orders, price_queues := pqs }

/-- Outer loop of the Buy branch of `BaseDequeLimitOrderBook.add`
(lines 74-134), instantiated with the `deque_lob` array index. -/
def arrayV2AddBuy : Nat → ArrayV2Book → LimitOrder →
    Except PyErr (ArrayV2Book × LimitOrder)
  | 0, _, _ => .error .outOfFuel
  | fuel + 1, b, lo =>
    if lo.price ≥ b.ask_min then
      match pyGet b.price_queues b.ask_min with
      | none => .error .indexError
      | some entries =>
        let r := v2BuyLevel lo.trader_id lo.quantity entries
        match pySet b.price_queues b.ask_min r.queue with
        | none => .error .indexError
        | some pqs =>
          let b1 := { b with price_queues := pqs, _matches := b._matches ++ r.fills }
          let lo1 := { lo with quantity := r.qty }
          if r.done then .ok (b1, lo1)
          else
            match arrayV2UpdateBestAsk (fuel + 1) b1 none with
            | .error e => .error e
            | .ok b2 => arrayV2AddBuy fuel b2 lo1
    else
      match arrayV2Enqueue b lo with
      | .error e => .error e
      | .ok b1 =>
        match arrayV2UpdateBestBid (fuel + 1) b1 (some lo.price) with
        | .error e => .error e
        | .ok b2 => .ok (b2, lo)

/-- Outer loop of the Sell branch of `BaseDequeLimitOrderBook.add`
(lines 136-195), instantiated with the `deque_lob` array index. -/
def arrayV2AddSell : Nat → ArrayV2Book → LimitOrder →
    Except PyErr (ArrayV2Book × LimitOrder)
  | 0, _, _ => .error .outOfFuel
  | fuel + 1, b, lo =>
    if lo.price ≤ b.bid_max then
      match pyGet b.price_queues b.bid_max with
      | none => .error .indexError
      | some entries =>
        let r := v2SellLevel lo.trader_id lo.quantity entries
        match pySet b.price_queues b.bid_max r.queue with
        | none => .error .indexError
        | some pqs =>
          let b1 := { b with price_queues := pqs, _matches := b._matches ++ r.fills }
          let lo1 := { lo with quantity := r.qty }
          if r.done then .ok (b1, lo1)
          else
            match arrayV2UpdateBestBid (fuel + 1) b1 none with
            | .error e => .error e
            | .ok b2 => arrayV2AddSell fuel b2 lo1
    else
      match arrayV2Enqueue b lo with
      | .error e => .error e
      | .ok b1 =>
        match arrayV2UpdateBestAsk (fuel + 1) b1 (some lo.price) with
        | .error e => .error e
        | .ok b2 => .ok (b2, lo)

/-- Model of `BaseDequeLimitOrderBook.add` with the `deque_lob` array index. -/
def arrayV2Add (fuel : Nat) (b : ArrayV2Book) (lo : LimitOrder) :
    Except PyErr (ArrayV2Book × LimitOrder) :=
  match lo.direction with
  | .Buy => arrayV2AddBuy fuel b lo
  | .Sell => arrayV2AddSell fuel b lo

/-! ### Claim theorems: concrete executions -/

/-- C1: the claim states that every Match emitted by a crossing `add`
carries the resting (maker) order's price, in every variant and both
directions.  The code refutes it: in the Buy branch of the top-level
`ArrayDequeLimitOrderBook.add` (and likewise `BalancedTreeDequeLimitOrderBook.add`)
both `execute` calls pass `price=price`, the *incoming* order's price.
Here a sell rests at price 2, a buy at price 4 crosses it, and the
emitted match carries price 4, not the maker's price 2. -/
theorem C1_buy_match_price_is_aggressor :
    (((arrayV1Add 50 (arrayV1Init 10) 1 .Sell 5 2).bind fun p =>
      arrayV1Add 50 p.1 2 .Buy 5 4).map fun p => p.1._matches)
      = .ok [⟨2, 1, 4, 5⟩] ∧
    ((arrayV1Add 50 (arrayV1Init 10) 1 .Sell 5 2).map fun p =>
      (p.1.price_queues.getD 2 []).map LimitOrder.price) = .ok [2] ∧
    (4 : Int) ≠ 2 := by
  refine ⟨by decide, by decide, by decide⟩

/-- C2: the claim states that Array, Hash and Tree variants produce the
same sequence of Match records (ids aside) on every valid operation
sequence.  On the sequence add(Sell, t=1, q=3, p=2); add(Buy, t=2, q=5, p=4)
the Array variant emits its match at price 4 (aggressor price, C1 bug)
while the Hash variant's full-fill branch emits it at the maker price 2,
so the match sequences differ. -/
theorem C2_variant_match_divergence :
    (((arrayV1Add 50 (arrayV1Init 10) 1 .Sell 3 2).bind fun p =>
      arrayV1Add 50 p.1 2 .Buy 5 4).map fun p => p.1._matches)
      = .ok [⟨2, 1, 4, 3⟩] ∧
    (((hashV1Add 50 (hashV1Init 10) ⟨1, 2, 3, .Sell, 0⟩).bind fun p =>
      hashV1Add 50 p.1 ⟨2, 4, 5, .Buy, 1⟩).map fun p => p.1._matches)
      = .ok [⟨2, 1, 2, 3⟩] ∧
    ([⟨2, 1, 4, 3⟩] : List MatchedOrder) ≠ [⟨2, 1, 2, 3⟩] := by
  refine ⟨by decide, by decide, by decide⟩

/-- C3: the claim states `best_bid < best_ask` after every operation on
every variant whenever both sides are non-empty.  In the `deque_lob`
array variant, `_update_best_ask_price` falls back to `_get_prev_level`
— a *downward* scan that can land on a bid level.  After
add(Buy, t=1, q=5, p=2); add(Sell, t=2, q=5, p=6); add(Buy, t=3, q=5, p=6)
(exact fill, leaving the empty ask level 6 cached); add(Sell, t=4, q=5, p=7),
the update walks down from 6 to the bid level 2, leaving
`best_bid = best_ask = 2` while a buy rests at 2 and a sell rests at 7. -/
theorem C3_crossed_book_after_sell :
    ((((((arrayV2Add 50 (arrayV2Init 10) ⟨1, 2, 5, .Buy, 0⟩).bind fun p =>
      arrayV2Add 50 p.1 ⟨2, 6, 5, .Sell, 1⟩).bind fun p =>
      arrayV2Add 50 p.1 ⟨3, 6, 5, .Buy, 2⟩).bind fun p =>
      arrayV2Add 50 p.1 ⟨4, 7, 5, .Sell, 3⟩)).map fun p =>
      (p.1.bid_max, p.1.ask_min,
        (p.1.price_queues.getD 2 []).map LimitOrder.direction,
        (p.1.price_queues.getD 7 []).map LimitOrder.direction))
      = .ok (2, 2, [.Buy], [.Sell]) ∧
    ¬ ((2 : Int) < 2) := by
  refine ⟨by decide, by decide⟩

/-- C4 counterexample: the claim states that after an `add` that fully
consumes the opposite side, the cached best returns to the empty-side
sentinel (`max_price + 1` or `max_price` for asks).  In the Hash variant,
add(Sell, t=1, q=5, p=3); add(Buy, t=2, q=5, p=3) clears the ask side
exactly, the matching loop returns early, and `ask_min` stays at 3 — not
11 (`max_price + 1`) and not 10 (`max_price`) — while no ask rests. -/
theorem C4_hash_clear_keeps_ask_min :
    (((hashV1Add 50 (hashV1Init 10) ⟨1, 3, 5, .Sell, 0⟩).bind fun p =>
      hashV1Add 50 p.1 ⟨2, 3, 5, .Buy, 1⟩).map fun p =>
      (p.1.ask_min, p.1.price_queues.map Prod.snd))
      = .ok (3, [[]]) ∧
    (3 : Int) ≠ 11 ∧ (3 : Int) ≠ 10 := by
  refine ⟨by decide, by decide, by decide⟩

/-- C5 counterexample: the claim states that an `add` with quantity ≤ 0
is rejected with a caller-visible failure and leaves the book unchanged.
In the Hash variant, add of a Buy with quantity 0 at price 3 succeeds
(no exception) and the zero-quantity order rests: the id map and the
queue at price 3 both hold it. -/
theorem C5_zero_qty_accepted :
    hashV1Add 1 (hashV1Init 10) ⟨1, 3, 0, .Buy, 0⟩ =
      .ok ({ max_price := 10, bid_max := 3, ask_min := 11
             orders := [(0, ⟨1, 3, 0, .Buy, 0⟩)]
             price_queues := [(3, [⟨1, 3, 0, .Buy, 0⟩])]
             _matches := [] }, ⟨1, 3, 0, .Buy, 0⟩) ∧
    [(0, (⟨1, 3, 0, .Buy, 0⟩ : LimitOrder))] ≠ (hashV1Init 10).orders := by
  refine ⟨by decide, by decide⟩

/-- C7: the claim states that when the resting head's quantity strictly
exceeds the incoming remaining quantity, the emitted Match has quantity
equal to the incoming remaining quantity.  In the Sell branch of the
top-level `ArrayDequeLimitOrderBook.add` the source decrements
`entry.quantity` *before* calling `execute(..., quantity=entry.quantity)`,
so with a resting buy of quantity 10 hit by a sell of quantity 3 the
emitted match carries quantity 7 (= 10 - 3), not 3, and conservation is
violated (7 matched out of an incoming 3). -/
theorem C7_sell_branch_match_qty_bug :
    (((arrayV1Add 50 (arrayV1Init 10) 1 .Buy 10 5).bind fun p =>
      arrayV1Add 50 p.1 2 .Sell 3 5).map fun p =>
      (p.1._matches, (p.1.price_queues.getD 5 []).map LimitOrder.quantity))
      = .ok ([⟨1, 2, 5, 7⟩], [7]) ∧
    (7 : Int) ≠ 3 := by
  refine ⟨by decide, by decide⟩

/-- C8 counterexample: the claim states that a Tree-variant cancel that
empties a level deletes the level at once, so membership for that price
is false when cancel returns.  After add(Buy, t=1, q=5, p=5) and cancel
of that order's id, the bid tree still holds key 5 (with an empty deque):
`BalancedTreeDequeLimitOrderBook.cancel` never removes the level. -/
theorem C8_empty_level_remains :
    (((treeV1Add 50 (treeV1Init 10) 1 .Buy 5 5).bind fun p =>
      treeV1Cancel p.1 0).map fun b => (b.bids, b.orders))
      = .ok ([(5, [])], []) ∧
    (5 : Int) ∈ [(5, ([] : List LimitOrder))].map Prod.fst := by
  refine ⟨by decide, by decide⟩

/-- C9: the claim states that any price in [0, max_price] is accepted and
that in the Array variant a non-crossing submission at exactly
`max_price` rests.  The top-level `ArrayDequeLimitOrderBook.__init__`
allocates only `range(self.max_price)` queues (indices 0..max_price-1),
so resting a buy at price = max_price = 5 raises `IndexError`. -/
theorem C9_add_at_max_price_raises :
    arrayV1Add 50 (arrayV1Init 5) 1 .Buy 1 5 = .error .indexError ∧
    (0 : Int) ≤ 5 ∧ (5 : Int) ≤ 5 := by
  refine ⟨by decide, by decide, by decide⟩

/-- C10 counterexample: the claim states that after `add` returns, the
caller-held `LimitOrder` object's quantity equals the unfilled residual.
When the incoming order is fully matched via the `else` branch, the
source never decrements `limit_order.quantity` there: after
add(Sell, t=1, q=5, p=3); add(Buy, t=2, q=5, p=3) the buy is fully
filled (residual 0, one match of quantity 5) yet the caller's object
still reports quantity 5, and nothing was stored in the id map. -/
theorem C10_full_match_quantity_stale :
    (((hashV1Add 50 (hashV1Init 10) ⟨1, 3, 5, .Sell, 0⟩).bind fun p =>
      hashV1Add 50 p.1 ⟨2, 3, 5, .Buy, 1⟩).map fun p =>
      (p.2.quantity, p.1._matches.map MatchedOrder.quantity, p.1.orders.lookup 1))
      = .ok (5, [5], none) ∧
    (5 : Int) ≠ 5 - 5 := by
  refine ⟨by decide, by decide⟩

/-! ### Helper lemmas -/

/-- Keys are unchanged by the value-replacing branch of `treeInsert`. -/
theorem map_replace_keys (t : List (Int × List LimitOrder)) (k : Int)
    (v : List LimitOrder) :
    ((t.map fun kv => if kv.1 = k then (k, v) else kv).map Prod.fst)
      = t.map Prod.fst := by
  induction t with
  | nil => rfl
  | cons kv rest ih =>
    simp only [List.map_cons, ih, List.cons.injEq, and_true]
    by_cases h : kv.1 = k
    · simp [h]
    · simp [h]

/-- A successful association-list lookup means some entry carries the key. -/
theorem lookup_any_key (t : List (Int × List LimitOrder)) (k : Int)
    (q : List LimitOrder) (h : t.lookup k = some q) :
    (t.any fun kv => kv.1 = k) = true := by
  induction t with
  | nil => simp [List.lookup] at h
  | cons kv rest ih =>
    rw [List.lookup] at h
    cases hk : k == kv.1 with
    | true =>
      simp only [List.any_cons, Bool.or_eq_true, decide_eq_true_eq]
      exact Or.inl (beq_iff_eq.mp hk).symm
    | false =>
      rw [hk] at h
      simp only [List.any_cons, Bool.or_eq_true]
      exact Or.inr (ih h)

/-- At a key that a lookup has found, `treeInsert` keeps the key list. -/
theorem treeInsert_keys (t : List (Int × List LimitOrder)) (k : Int)
    (v q : List LimitOrder) (h : t.lookup k = some q) :
    (treeInsert t k v).map Prod.fst = t.map Prod.fst := by
  rw [treeInsert, if_pos (lookup_any_key t k q h), map_replace_keys]

/-! ### Claim theorems: amended statements -/

/-- Resting an order in the top-level Array variant changes neither
cached best scalar. -/
theorem arrayV1Enqueue_scalars (b : ArrayV1Book) (lo : LimitOrder)
    (b2 : ArrayV1Book) (h : arrayV1Enqueue b lo = .ok b2) :
    b2.ask_min = b.ask_min ∧ b2.bid_max = b.bid_max := by
  simp only [arrayV1Enqueue] at h
  rcases hg : pyGet b.price_queues lo.price with _ | q
  · simp only [hg] at h
    exact Except.noConfusion h
  · simp only [hg] at h
    rcases hs : pySet b.price_queues lo.price (q ++ [lo]) with _ | pqs
    · simp only [hs] at h
      exact Except.noConfusion h
    · simp only [hs] at h
      cases h
      exact ⟨rfl, rfl⟩

/-- After any completed buy in the Hash variant, the cached ask_min is
either `max(previous ask_min, price + 1)` (the order rested after the
scan) or at most the incoming price (fully matched inside the loop); it
is never recomputed from the remaining content. -/
theorem hashV1AddBuy_ask_min :
    ∀ (fuel : Nat) (b : HashV1Book) (lo : LimitOrder) (b1 : HashV1Book)
      (lo1 : LimitOrder), hashV1AddBuy fuel b lo = .ok (b1, lo1) →
      b1.ask_min = max b.ask_min (lo.price + 1) ∨ b1.ask_min ≤ lo.price := by
  intro fuel
  induction fuel with
  | zero =>
    intro b lo b1 lo1 h
    exact Except.noConfusion h
  | succ n ih =>
    intro b lo b1 lo1 h
    simp only [hashV1AddBuy] at h
    by_cases hc : lo.price ≥ b.ask_min
    · rw [if_pos hc] at h
      by_cases hdone : (hashV1BuyLevel lo.trader_id lo.price lo.quantity
          ((b.price_queues.lookup b.ask_min).getD [])).done = true
      · rw [if_pos hdone] at h
        rw [Except.ok.injEq, Prod.mk.injEq] at h
        obtain ⟨hb, hl⟩ := h
        subst hb
        right
        exact hc
      · rw [if_neg hdone] at h
        rcases ih _ _ _ _ h with h1 | h1
        · left
          have h2 : b1.ask_min = max (b.ask_min + 1) (lo.price + 1) := h1
          rw [h2, max_eq_right (by omega : b.ask_min + 1 ≤ lo.price + 1),
            max_eq_right (by omega : b.ask_min ≤ lo.price + 1)]
        · right
          exact h1
    · rw [if_neg hc] at h
      rw [Except.ok.injEq, Prod.mk.injEq] at h
      obtain ⟨hb, hl⟩ := h
      subst hb
      left
      show b.ask_min = max b.ask_min (lo.price + 1)
      exact (max_eq_left (by omega : lo.price + 1 ≤ b.ask_min)).symm

/-- After any completed sell in the Hash variant, the cached bid_max is
either `min(previous bid_max, price - 1)` (the order rested after the
scan) or at least the incoming price (fully matched inside the loop). -/
theorem hashV1AddSell_bid_max :
    ∀ (fuel : Nat) (b : HashV1Book) (lo : LimitOrder) (b1 : HashV1Book)
      (lo1 : LimitOrder), hashV1AddSell fuel b lo = .ok (b1, lo1) →
      b1.bid_max = min b.bid_max (lo.price - 1) ∨ b1.bid_max ≥ lo.price := by
  intro fuel
  induction fuel with
  | zero =>
    intro b lo b1 lo1 h
    exact Except.noConfusion h
  | succ n ih =>
    intro b lo b1 lo1 h
    simp only [hashV1AddSell] at h
    by_cases hc : lo.price ≤ b.bid_max
    · rw [if_pos hc] at h
      by_cases hdone : (hashV1SellLevel lo.trader_id lo.price lo.quantity
          ((b.price_queues.lookup b.bid_max).getD [])).done = true
      · rw [if_pos hdone] at h
        rw [Except.ok.injEq, Prod.mk.injEq] at h
        obtain ⟨hb, hl⟩ := h
        subst hb
        right
        exact hc
      · rw [if_neg hdone] at h
        rcases ih _ _ _ _ h with h1 | h1
        · left
          have h2 : b1.bid_max = min (b.bid_max - 1) (lo.price - 1) := h1
          rw [h2, min_eq_right (by omega : lo.price - 1 ≤ b.bid_max - 1),
            min_eq_right (by omega : lo.price - 1 ≤ b.bid_max)]
        · right
          exact h1
    · rw [if_neg hc] at h
      rw [Except.ok.injEq, Prod.mk.injEq] at h
      obtain ⟨hb, hl⟩ := h
      subst hb
      left
      show b.bid_max = min b.bid_max (lo.price - 1)
      exact (min_eq_left (by omega : b.bid_max ≤ lo.price - 1)).symm

/-- Array-variant counterpart of `hashV1AddBuy_ask_min`. -/
theorem arrayV1AddBuy_ask_min :
    ∀ (fuel : Nat) (b : ArrayV1Book) (trader q p : Int) (b1 : ArrayV1Book)
      (r : Option LimitOrder), arrayV1AddBuy trader q p fuel b = .ok (b1, r) →
      b1.ask_min = max b.ask_min (p + 1) ∨ b1.ask_min ≤ p := by
  intro fuel
  induction fuel with
  | zero =>
    intro b trader q p b1 r h
    exact Except.noConfusion h
  | succ n ih =>
    intro b trader q p b1 r h
    simp only [arrayV1AddBuy] at h
    by_cases hc : p ≥ b.ask_min
    · rw [if_pos hc] at h
      rcases hg : pyGet b.price_queues b.ask_min with _ | entries
      · simp only [hg] at h
        exact Except.noConfusion h
      · simp only [hg] at h
        rcases hs : pySet b.price_queues b.ask_min
            (arrayV1BuyLevel trader p q entries).queue with _ | pqs
        · simp only [hs] at h
          exact Except.noConfusion h
        · simp only [hs] at h
          by_cases hdone : (arrayV1BuyLevel trader p q entries).done = true
          · rw [if_pos hdone] at h
            rw [Except.ok.injEq, Prod.mk.injEq] at h
            obtain ⟨hb, hl⟩ := h
            subst hb
            right
            exact hc
          · rw [if_neg hdone] at h
            rcases ih _ _ _ _ _ _ h with h1 | h1
            · left
              have h2 : b1.ask_min = max (b.ask_min + 1) (p + 1) := h1
              rw [h2, max_eq_right (by omega : b.ask_min + 1 ≤ p + 1),
                max_eq_right (by omega : b.ask_min ≤ p + 1)]
            · right
              exact h1
    · rw [if_neg hc] at h
      rcases he : arrayV1Enqueue { b with next_id := b.next_id + 1 }
          ⟨trader, p, q, .Buy, b.next_id⟩ with e | b2
      · simp only [he] at h
        exact Except.noConfusion h
      · simp only [he] at h
        rw [Except.ok.injEq, Prod.mk.injEq] at h
        obtain ⟨hb, hl⟩ := h
        subst hb
        left
        show b2.ask_min = max b.ask_min (p + 1)
        rw [(arrayV1Enqueue_scalars _ _ _ he).1]
        show b.ask_min = max b.ask_min (p + 1)
        exact (max_eq_left (by omega : p + 1 ≤ b.ask_min)).symm

/-- Array-variant counterpart of `hashV1AddSell_bid_max`. -/
theorem arrayV1AddSell_bid_max :
    ∀ (fuel : Nat) (b : ArrayV1Book) (trader q p : Int) (b1 : ArrayV1Book)
      (r : Option LimitOrder), arrayV1AddSell trader q p fuel b = .ok (b1, r) →
      b1.bid_max = min b.bid_max (p - 1) ∨ b1.bid_max ≥ p := by
  intro fuel
  induction fuel with
  | zero =>
    intro b trader q p b1 r h
    exact Except.noConfusion h
  | succ n ih =>
    intro b trader q p b1 r h
    simp only [arrayV1AddSell] at h
    by_cases hc : p ≤ b.bid_max
    · rw [if_pos hc] at h
      rcases hg : pyGet b.price_queues b.bid_max with _ | entries
      · simp only [hg] at h
        exact Except.noConfusion h
      · simp only [hg] at h
        rcases hs : pySet b.price_queues b.bid_max
            (arrayV1SellLevel trader q entries).queue with _ | pqs
        · simp only [hs] at h
          exact Except.noConfusion h
        · simp only [hs] at h
          by_cases hdone : (arrayV1SellLevel trader q entries).done = true
          · rw [if_pos hdone] at h
            rw [Except.ok.injEq, Prod.mk.injEq] at h
            obtain ⟨hb, hl⟩ := h
            subst hb
            right
            exact hc
          · rw [if_neg hdone] at h
            rcases ih _ _ _ _ _ _ h with h1 | h1
            · left
              have h2 : b1.bid_max = min (b.bid_max - 1) (p - 1) := h1
              rw [h2, min_eq_right (by omega : p - 1 ≤ b.bid_max - 1),
                min_eq_right (by omega : p - 1 ≤ b.bid_max)]
            · right
              exact h1
    · rw [if_neg hc] at h
      rcases he : arrayV1Enqueue { b with next_id := b.next_id + 1 }
          ⟨trader, p, q, .Sell, b.next_id⟩ with e | b2
      · simp only [he] at h
        exact Except.noConfusion h
      · simp only [he] at h
        rw [Except.ok.injEq, Prod.mk.injEq] at h
        obtain ⟨hb, hl⟩ := h
        subst hb
        left
        show b2.bid_max = min b.bid_max (p - 1)
        rw [(arrayV1Enqueue_scalars _ _ _ he).2]
        show b.bid_max = min b.bid_max (p - 1)
        exact (min_eq_left (by omega : b.bid_max ≤ p - 1)).symm

/-- C4 (amended): in the Hash and Array variants the cached best on the
opposite side is advanced lazily by the matching scan and never
recomputed from the remaining content.  After every completed buy,
`ask_min` either equals `max(previous ask_min, price + 1)` — the order
rested, the scan having stepped one past each drained level up to the
incoming price — or is at most the incoming price (the order was fully
matched at a level at or below its price, as in the counterexample,
where a full clear keeps `ask_min` at the consumed level).  Hence after
an add that fully clears the ask side the cached best equals the
sentinel `max_price + 1` only if the sentinel was already cached or the
incoming price was `max_price` itself.  Symmetrically for `bid_max`
after every completed sell. -/
theorem C4_cached_best_lazy :
    (∀ (fuel : Nat) (b : HashV1Book) (lo : LimitOrder) (b1 : HashV1Book)
      (lo1 : LimitOrder), hashV1AddBuy fuel b lo = .ok (b1, lo1) →
      b1.ask_min = max b.ask_min (lo.price + 1) ∨ b1.ask_min ≤ lo.price) ∧
    (∀ (fuel : Nat) (b : HashV1Book) (lo : LimitOrder) (b1 : HashV1Book)
      (lo1 : LimitOrder), hashV1AddSell fuel b lo = .ok (b1, lo1) →
      b1.bid_max = min b.bid_max (lo.price - 1) ∨ b1.bid_max ≥ lo.price) ∧
    (∀ (fuel : Nat) (b : ArrayV1Book) (trader q p : Int) (b1 : ArrayV1Book)
      (r : Option LimitOrder), arrayV1AddBuy trader q p fuel b = .ok (b1, r) →
      b1.ask_min = max b.ask_min (p + 1) ∨ b1.ask_min ≤ p) ∧
    (∀ (fuel : Nat) (b : ArrayV1Book) (trader q p : Int) (b1 : ArrayV1Book)
      (r : Option LimitOrder), arrayV1AddSell trader q p fuel b = .ok (b1, r) →
      b1.bid_max = min b.bid_max (p - 1) ∨ b1.bid_max ≥ p) :=
  ⟨hashV1AddBuy_ask_min, hashV1AddSell_bid_max,
    arrayV1AddBuy_ask_min, arrayV1AddSell_bid_max⟩

/-- Witness for `C4_cached_best_lazy`: the exactly-filled buy at price 3
leaves `ask_min` at the consumed level 3 (the right disjunct), and a
resting buy at price 4 over the same book moves `ask_min` to
`max(3, 5) = 5` (the left disjunct). -/
theorem C4_cached_best_lazy_witness :
    ((⟨10, 0, 3, [(0, ⟨1, 3, 5, .Sell, 0⟩)], [(3, [])],
        [⟨2, 1, 3, 5⟩]⟩ : HashV1Book).ask_min =
      max (⟨10, 0, 3, [(0, ⟨1, 3, 5, .Sell, 0⟩)], [(3, [⟨1, 3, 5, .Sell, 0⟩])],
        []⟩ : HashV1Book).ask_min ((⟨2, 3, 5, .Buy, 1⟩ : LimitOrder).price + 1) ∨
      (⟨10, 0, 3, [(0, ⟨1, 3, 5, .Sell, 0⟩)], [(3, [])],
        [⟨2, 1, 3, 5⟩]⟩ : HashV1Book).ask_min ≤
        (⟨2, 3, 5, .Buy, 1⟩ : LimitOrder).price) ∧
    ((⟨10, 4, 5, [(1, ⟨2, 4, 2, .Buy, 1⟩), (0, ⟨1, 3, 3, .Sell, 0⟩)],
        [(3, []), (4, [⟨2, 4, 2, .Buy, 1⟩])],
        [⟨2, 1, 3, 3⟩]⟩ : HashV1Book).ask_min =
      max (⟨10, 0, 3, [(0, ⟨1, 3, 3, .Sell, 0⟩)], [(3, [⟨1, 3, 3, .Sell, 0⟩])],
        []⟩ : HashV1Book).ask_min ((⟨2, 4, 5, .Buy, 1⟩ : LimitOrder).price + 1) ∨
      (⟨10, 4, 5, [(1, ⟨2, 4, 2, .Buy, 1⟩), (0, ⟨1, 3, 3, .Sell, 0⟩)],
        [(3, []), (4, [⟨2, 4, 2, .Buy, 1⟩])],
        [⟨2, 1, 3, 3⟩]⟩ : HashV1Book).ask_min ≤
        (⟨2, 4, 5, .Buy, 1⟩ : LimitOrder).price) :=
  ⟨C4_cached_best_lazy.1 50
      ⟨10, 0, 3, [(0, ⟨1, 3, 5, .Sell, 0⟩)], [(3, [⟨1, 3, 5, .Sell, 0⟩])], []⟩
      ⟨2, 3, 5, .Buy, 1⟩
      ⟨10, 0, 3, [(0, ⟨1, 3, 5, .Sell, 0⟩)], [(3, [])], [⟨2, 1, 3, 5⟩]⟩
      ⟨2, 3, 5, .Buy, 1⟩ (by decide),
    C4_cached_best_lazy.1 50
      ⟨10, 0, 3, [(0, ⟨1, 3, 3, .Sell, 0⟩)], [(3, [⟨1, 3, 3, .Sell, 0⟩])], []⟩
      ⟨2, 4, 5, .Buy, 1⟩
      ⟨10, 4, 5, [(1, ⟨2, 4, 2, .Buy, 1⟩), (0, ⟨1, 3, 3, .Sell, 0⟩)],
        [(3, []), (4, [⟨2, 4, 2, .Buy, 1⟩])], [⟨2, 1, 3, 3⟩]⟩
      ⟨2, 4, 2, .Buy, 1⟩ (by decide)⟩

/-- C5 (amended): `add` performs no validation.  A Buy submission with
quantity ≤ 0 (at any in-range price) is not rejected: in the Hash variant
it returns normally and the order rests unchanged, mutating the id map
and the price queues, with no match emitted. -/
theorem C5_no_validation_order_rests (mp t p q : Int) (oid : Nat)
    (hq : q ≤ 0) (h0 : 0 ≤ p) (hpm : p ≤ mp) :
    hashV1Add 1 (hashV1Init mp) ⟨t, p, q, .Buy, oid⟩ =
      .ok ({ max_price := mp
             bid_max := if 0 < p then p else 0
             ask_min := mp + 1
             orders := [(oid, ⟨t, p, q, .Buy, oid⟩)]
             price_queues := [(p, [⟨t, p, q, .Buy, oid⟩])]
             _matches := [] }, ⟨t, p, q, .Buy, oid⟩) := by
  have hc : ¬ (p ≥ mp + 1) := by omega
  simp [hashV1Add, hashV1AddBuy, hashV1Init, hashV1Enqueue, hc]

/-- Witness for `C5_no_validation_order_rests`: quantity 0 at price 3. -/
theorem C5_no_validation_witness :
    hashV1Add 1 (hashV1Init 10) ⟨1, 3, 0, .Buy, 5⟩ =
      .ok ({ max_price := 10
             bid_max := if (0 : Int) < 3 then 3 else 0
             ask_min := 11
             orders := [(5, ⟨1, 3, 0, .Buy, 5⟩)]
             price_queues := [(3, [⟨1, 3, 0, .Buy, 5⟩])]
             _matches := [] }, ⟨1, 3, 0, .Buy, 5⟩) :=
  C5_no_validation_order_rests 10 1 3 0 5 (by decide) (by decide) (by decide)

/-- C8 (amended): a Tree-variant cancel never deletes the price level,
even when it empties the queue: the key sets of both trees are exactly
what they were before the call, so a membership test for the cancelled
order's price still returns true; the empty level is only removed later,
by an `add` whose matching loop drains that level. -/
theorem C8_cancel_preserves_levels (b : TreeV1Book) (oid : Nat)
    (b1 : TreeV1Book) (h : treeV1Cancel b oid = .ok b1) :
    b1.bids.map Prod.fst = b.bids.map Prod.fst ∧
    b1.asks.map Prod.fst = b.asks.map Prod.fst := by
  rcases h1 : b.orders.lookup oid with _ | lo
  · simp only [treeV1Cancel, h1] at h
    exact Except.noConfusion h
  · rcases hd : lo.direction
    · rcases h2 : b.bids.lookup lo.price with _ | q
      · simp only [treeV1Cancel, h1, hd, h2] at h
        exact Except.noConfusion h
      · by_cases h3 : (q.all fun o => o.id ≠ lo.id) = true
        · simp only [treeV1Cancel, h1, hd, h2, if_pos h3] at h
          exact Except.noConfusion h
        · simp only [treeV1Cancel, h1, hd, h2, if_neg h3] at h
          cases h
          exact ⟨treeInsert_keys b.bids lo.price _ q h2, rfl⟩
    · rcases h2 : b.asks.lookup lo.price with _ | q
      · simp only [treeV1Cancel, h1, hd, h2] at h
        exact Except.noConfusion h
      · by_cases h3 : (q.all fun o => o.id ≠ lo.id) = true
        · simp only [treeV1Cancel, h1, hd, h2, if_pos h3] at h
          exact Except.noConfusion h
        · simp only [treeV1Cancel, h1, hd, h2, if_neg h3] at h
          cases h
          exact ⟨rfl, treeInsert_keys b.asks lo.price _ q h2⟩

/-- Witness for `C8_cancel_preserves_levels`: cancelling the only bid at
price 5 keeps key 5 in the bid tree. -/
theorem C8_cancel_preserves_levels_witness :
    (TreeV1Book.bids ⟨10, [], [(5, [])], [], [], 1⟩).map Prod.fst
        = (TreeV1Book.bids ⟨10, [(0, ⟨1, 5, 5, .Buy, 0⟩)],
            [(5, [⟨1, 5, 5, .Buy, 0⟩])], [], [], 1⟩).map Prod.fst ∧
    (TreeV1Book.asks ⟨10, [], [(5, [])], [], [], 1⟩).map Prod.fst
        = (TreeV1Book.asks ⟨10, [(0, ⟨1, 5, 5, .Buy, 0⟩)],
            [(5, [⟨1, 5, 5, .Buy, 0⟩])], [], [], 1⟩).map Prod.fst :=
  C8_cancel_preserves_levels
    ⟨10, [(0, ⟨1, 5, 5, .Buy, 0⟩)], [(5, [⟨1, 5, 5, .Buy, 0⟩])], [], [], 1⟩ 0
    ⟨10, [], [(5, [])], [], [], 1⟩ (by decide)

/-- Default order used with `List.getD`. -/
def dummyOrder : LimitOrder := ⟨0, 0, 0, .Buy, 0⟩

/-- Default match used with `List.getD`. -/
def dummyMatch : MatchedOrder := ⟨0, 0, 0, 0⟩

/-- Positional maker correspondence for the Hash-variant Buy level loop:
the k-th match emitted while draining a level is against the k-th order
of the queue (the loop only ever consumes the head). -/
theorem hashV1BuyLevel_maker (buyer lop : Int) :
    ∀ (q : List LimitOrder) (qty : Int) (idx : Nat),
      idx < (hashV1BuyLevel buyer lop qty q).fills.length →
      idx < q.length ∧
      ((hashV1BuyLevel buyer lop qty q).fills.getD idx dummyMatch).sell_trader_id
        = (q.getD idx dummyOrder).trader_id := by
  intro q
  induction q with
  | nil =>
    intro qty idx h
    simp [hashV1BuyLevel] at h
  | cons entry rest ih =>
    intro qty idx h
    by_cases hlt : entry.quantity < qty
    · simp only [hashV1BuyLevel, if_pos hlt] at h ⊢
      cases idx with
      | zero =>
        simp
      | succ n =>
        simp only [List.length_cons, Nat.add_lt_add_iff_right] at h
        obtain ⟨h1, h2⟩ := ih (qty - entry.quantity) n h
        refine ⟨by simpa using Nat.succ_lt_succ h1, ?_⟩
        simpa using h2
    · by_cases hgt : entry.quantity > qty
      · simp only [hashV1BuyLevel, if_neg hlt, if_pos hgt] at h ⊢
        have h1 : idx < 1 := by simpa using h
        obtain rfl : idx = 0 := by omega
        simp
      · simp only [hashV1BuyLevel, if_neg hlt, if_neg hgt] at h ⊢
        have h1 : idx < 1 := by simpa using h
        obtain rfl : idx = 0 := by omega
        simp

/-- Every order left in the queue after the Hash-variant Buy level loop
sits in the tail of the original queue that starts at the last matched
position: the loop pops strictly from the front. -/
theorem hashV1BuyLevel_queue_sub (buyer lop : Int) :
    ∀ (q : List LimitOrder) (qty : Int) (o : LimitOrder),
      o ∈ (hashV1BuyLevel buyer lop qty q).queue →
      o.id ∈ ((q.drop ((hashV1BuyLevel buyer lop qty q).fills.length - 1)).map
        LimitOrder.id) := by
  intro q
  induction q with
  | nil =>
    intro qty o ho
    simp [hashV1BuyLevel] at ho
  | cons entry rest ih =>
    intro qty o ho
    by_cases hlt : entry.quantity < qty
    · simp only [hashV1BuyLevel, if_pos hlt] at ho ⊢
      have hi := ih (qty - entry.quantity) o ho
      cases hL : (hashV1BuyLevel buyer lop (qty - entry.quantity) rest).fills.length with
      | zero =>
        rw [hL] at hi
        simp only [List.length_cons, hL]
        simp only [Nat.zero_sub, List.drop_zero] at hi ⊢
        simp [List.mem_cons]
        right
        simpa using hi
      | succ n =>
        rw [hL] at hi
        simp only [List.length_cons, hL]
        have : n + 1 + 1 - 1 = n + 1 := rfl
        rw [this, List.drop_succ_cons]
        simpa using hi
    · by_cases hgt : entry.quantity > qty
      · simp only [hashV1BuyLevel, if_neg hlt, if_pos hgt] at ho ⊢
        rcases List.mem_cons.mp ho with h | h
        · subst h
          simp
        · simp [List.mem_cons]
          right
          exact ⟨o, h, rfl⟩
      · simp only [hashV1BuyLevel, if_neg hlt, if_neg hgt] at ho ⊢
        simp [List.mem_cons]
        right
        exact ⟨o, ho, rfl⟩

/-- C6: time priority within a price level, as drained by the Hash
variant's matching loop (`HashDequeLimitOrderBook.add`, inner loop of the
Buy branch; arrival order is queue order because `_add_order_to_queue`
appends at the tail).  If the j-th match of one drain hits order B at
queue position j, then every earlier queue position i < j was matched
earlier in the emitted sequence (the i-th match is against the order at
position i) and that order has been fully consumed — it is no longer in
the queue. -/
theorem C6_level_fifo_time_priority (buyer lop qty : Int) (q : List LimitOrder)
    (i j : Nat) (hij : i < j)
    (hj : j < (hashV1BuyLevel buyer lop qty q).fills.length)
    (hnd : (q.map LimitOrder.id).Nodup) :
    i < q.length ∧ j < q.length ∧
    ((hashV1BuyLevel buyer lop qty q).fills.getD i dummyMatch).sell_trader_id
      = (q.getD i dummyOrder).trader_id ∧
    ((hashV1BuyLevel buyer lop qty q).fills.getD j dummyMatch).sell_trader_id
      = (q.getD j dummyOrder).trader_id ∧
    (q.getD i dummyOrder).id ∉
      (hashV1BuyLevel buyer lop qty q).queue.map LimitOrder.id := by
  have hi := hij.trans hj
  obtain ⟨hiq, hieq⟩ := hashV1BuyLevel_maker buyer lop q qty i hi
  obtain ⟨hjq, hjeq⟩ := hashV1BuyLevel_maker buyer lop q qty j hj
  refine ⟨hiq, hjq, hieq, hjeq, ?_⟩
  intro hmem
  obtain ⟨o, ho, hoid⟩ := List.mem_map.mp hmem
  have h2 := hashV1BuyLevel_queue_sub buyer lop q qty o ho
  rw [hoid] at h2
  have hiL : i < (hashV1BuyLevel buyer lop qty q).fills.length - 1 := by omega
  have hgetq : q.getD i dummyOrder = q.get ⟨i, hiq⟩ := by
    rw [List.getD_eq_get?, List.get?_eq_get hiq]
    rfl
  have htakeget : (q.take ((hashV1BuyLevel buyer lop qty q).fills.length - 1)).get? i
      = some (q.get ⟨i, hiq⟩) := by
    rw [List.get?_take hiL, List.get?_eq_get hiq]
  have htake : (q.getD i dummyOrder).id ∈
      (q.take ((hashV1BuyLevel buyer lop qty q).fills.length - 1)).map
        LimitOrder.id := by
    refine List.mem_map.mpr ⟨q.getD i dummyOrder, ?_, rfl⟩
    rw [hgetq]
    exact List.get?_mem htakeget
  have hsplit : q.map LimitOrder.id =
      (q.take ((hashV1BuyLevel buyer lop qty q).fills.length - 1)).map
        LimitOrder.id ++
      (q.drop ((hashV1BuyLevel buyer lop qty q).fills.length - 1)).map
        LimitOrder.id := by
    rw [← List.map_append, List.take_append_drop]
  rw [hsplit] at hnd
  exact (List.nodup_append.mp hnd).2.2 htake h2

/-- Witness for `C6_level_fifo_time_priority`: a queue of two resting
sells at price 5 drained by a buy of quantity 9. -/
theorem C6_level_fifo_time_priority_witness :
    0 < ([⟨1, 5, 3, .Sell, 10⟩, ⟨2, 5, 4, .Sell, 11⟩] : List LimitOrder).length ∧
    1 < ([⟨1, 5, 3, .Sell, 10⟩, ⟨2, 5, 4, .Sell, 11⟩] : List LimitOrder).length ∧
    ((hashV1BuyLevel 9 5 9 [⟨1, 5, 3, .Sell, 10⟩, ⟨2, 5, 4, .Sell, 11⟩]).fills.getD
        0 dummyMatch).sell_trader_id
      = (([⟨1, 5, 3, .Sell, 10⟩, ⟨2, 5, 4, .Sell, 11⟩] : List LimitOrder).getD
        0 dummyOrder).trader_id ∧
    ((hashV1BuyLevel 9 5 9 [⟨1, 5, 3, .Sell, 10⟩, ⟨2, 5, 4, .Sell, 11⟩]).fills.getD
        1 dummyMatch).sell_trader_id
      = (([⟨1, 5, 3, .Sell, 10⟩, ⟨2, 5, 4, .Sell, 11⟩] : List LimitOrder).getD
        1 dummyOrder).trader_id ∧
    (([⟨1, 5, 3, .Sell, 10⟩, ⟨2, 5, 4, .Sell, 11⟩] : List LimitOrder).getD
        0 dummyOrder).id ∉
      (hashV1BuyLevel 9 5 9 [⟨1, 5, 3, .Sell, 10⟩,
        ⟨2, 5, 4, .Sell, 11⟩]).queue.map LimitOrder.id :=
  C6_level_fifo_time_priority 9 5 9 [⟨1, 5, 3, .Sell, 10⟩, ⟨2, 5, 4, .Sell, 11⟩]
    0 1 (by decide) (by decide) (by decide)

/-- When a level drain runs out of queue (`done = false`), the remaining
incoming quantity is the initial quantity minus everything matched
(Hash-variant Buy loop). -/
theorem hashV1BuyLevel_qty (buyer lop : Int) :
    ∀ (q : List LimitOrder) (qty : Int),
      (hashV1BuyLevel buyer lop qty q).done = false →
      (hashV1BuyLevel buyer lop qty q).qty =
        qty - ((hashV1BuyLevel buyer lop qty q).fills.map
          MatchedOrder.quantity).sum := by
  intro q
  induction q with
  | nil =>
    intro qty h
    simp [hashV1BuyLevel]
  | cons entry rest ih =>
    intro qty h
    by_cases hlt : entry.quantity < qty
    · simp only [hashV1BuyLevel, if_pos hlt] at h ⊢
      rw [ih _ h]
      simp only [List.map_cons, List.sum_cons]
      ring
    · by_cases hgt : entry.quantity > qty
      · simp only [hashV1BuyLevel, if_neg hlt, if_pos hgt] at h
        exact Bool.noConfusion h
      · simp only [hashV1BuyLevel, if_neg hlt, if_neg hgt] at h
        exact Bool.noConfusion h

/-- When a level drain runs out of queue (`done = false`), the remaining
incoming quantity is the initial quantity minus everything matched
(Hash-variant Sell loop). -/
theorem hashV1SellLevel_qty (trader lop : Int) :
    ∀ (q : List LimitOrder) (qty : Int),
      (hashV1SellLevel trader lop qty q).done = false →
      (hashV1SellLevel trader lop qty q).qty =
        qty - ((hashV1SellLevel trader lop qty q).fills.map
          MatchedOrder.quantity).sum := by
  intro q
  induction q with
  | nil =>
    intro qty h
    simp [hashV1SellLevel]
  | cons entry rest ih =>
    intro qty h
    by_cases hlt : entry.quantity < qty
    · simp only [hashV1SellLevel, if_pos hlt] at h ⊢
      rw [ih _ h]
      simp only [List.map_cons, List.sum_cons]
      ring
    · by_cases hgt : entry.quantity > qty
      · simp only [hashV1SellLevel, if_neg hlt, if_pos hgt] at h
        exact Bool.noConfusion h
      · simp only [hashV1SellLevel, if_neg hlt, if_neg hgt] at h
        exact Bool.noConfusion h

/-- At a key the dict holds, `hashV1WriteBack` replaces its value. -/
theorem lookup_writeBack_self (d : List (Int × List LimitOrder)) (k : Int)
    (v : List LimitOrder) :
    ∀ q, d.lookup k = some q →
      (hashV1WriteBack d k v).lookup k = some v := by
  induction d with
  | nil =>
    intro q h
    simp [List.lookup] at h
  | cons kv rest ih =>
    intro q h
    rw [List.lookup] at h
    by_cases hk : kv.1 = k
    · subst hk
      show List.lookup kv.1
        ((if kv.1 = kv.1 then (kv.1, v) else kv) :: hashV1WriteBack rest kv.1 v)
          = some v
      rw [if_pos rfl, List.lookup]
      simp
    · have hk2 : (k == kv.1) = false :=
        beq_eq_false_iff_ne.mpr fun he => hk he.symm
      rw [hk2] at h
      have h3 := ih q h
      show List.lookup k
        ((if kv.1 = k then (k, v) else kv) :: hashV1WriteBack rest k v) = some v
      rw [if_neg hk, List.lookup, hk2]
      exact h3

/-- Appending a fresh key to the dict makes it found by lookup. -/
theorem lookup_append_self (d : List (Int × List LimitOrder)) (k : Int)
    (v : List LimitOrder) (h : d.lookup k = none) :
    (d ++ [(k, v)]).lookup k = some v := by
  induction d with
  | nil => simp [List.lookup]
  | cons kv rest ih =>
    rw [List.lookup] at h
    by_cases hk : (k == kv.1) = true
    · rw [hk] at h
      exact Option.noConfusion h
    · have hk2 : (k == kv.1) = false := by
        simpa using hk
      rw [hk2] at h
      rw [List.cons_append, List.lookup, hk2]
      exact ih h

/-- A buy crossing loop only appends to the match log. -/
theorem hashV1AddBuy_matches_extend :
    ∀ (fuel : Nat) (b : HashV1Book) (lo : LimitOrder) (b1 : HashV1Book)
      (lo1 : LimitOrder), hashV1AddBuy fuel b lo = .ok (b1, lo1) →
      ∃ ms, b1._matches = b._matches ++ ms := by
  intro fuel
  induction fuel with
  | zero =>
    intro b lo b1 lo1 h
    exact Except.noConfusion h
  | succ n ih =>
    intro b lo b1 lo1 h
    simp only [hashV1AddBuy] at h
    by_cases hc : lo.price ≥ b.ask_min
    · rw [if_pos hc] at h
      by_cases hdone : (hashV1BuyLevel lo.trader_id lo.price lo.quantity
          ((b.price_queues.lookup b.ask_min).getD [])).done = true
      · rw [if_pos hdone] at h
        rw [Except.ok.injEq, Prod.mk.injEq] at h
        obtain ⟨hb, hl⟩ := h
        subst hb
        exact ⟨_, rfl⟩
      · rw [if_neg hdone] at h
        obtain ⟨ms, hms⟩ := ih _ _ _ _ h
        refine ⟨(hashV1BuyLevel lo.trader_id lo.price lo.quantity
          ((b.price_queues.lookup b.ask_min).getD [])).fills ++ ms, ?_⟩
        rw [hms]
        simp
    · rw [if_neg hc] at h
      rw [Except.ok.injEq, Prod.mk.injEq] at h
      obtain ⟨hb, hl⟩ := h
      subst hb
      exact ⟨[], by simp [hashV1Enqueue]⟩

/-- A sell crossing loop only appends to the match log. -/
theorem hashV1AddSell_matches_extend :
    ∀ (fuel : Nat) (b : HashV1Book) (lo : LimitOrder) (b1 : HashV1Book)
      (lo1 : LimitOrder), hashV1AddSell fuel b lo = .ok (b1, lo1) →
      ∃ ms, b1._matches = b._matches ++ ms := by
  intro fuel
  induction fuel with
  | zero =>
    intro b lo b1 lo1 h
    exact Except.noConfusion h
  | succ n ih =>
    intro b lo b1 lo1 h
    simp only [hashV1AddSell] at h
    by_cases hc : lo.price ≤ b.bid_max
    · rw [if_pos hc] at h
      by_cases hdone : (hashV1SellLevel lo.trader_id lo.price lo.quantity
          ((b.price_queues.lookup b.bid_max).getD [])).done = true
      · rw [if_pos hdone] at h
        rw [Except.ok.injEq, Prod.mk.injEq] at h
        obtain ⟨hb, hl⟩ := h
        subst hb
        exact ⟨_, rfl⟩
      · rw [if_neg hdone] at h
        obtain ⟨ms, hms⟩ := ih _ _ _ _ h
        refine ⟨(hashV1SellLevel lo.trader_id lo.price lo.quantity
          ((b.price_queues.lookup b.bid_max).getD [])).fills ++ ms, ?_⟩
        rw [hms]
        simp
    · rw [if_neg hc] at h
      rw [Except.ok.injEq, Prod.mk.injEq] at h
      obtain ⟨hb, hl⟩ := h
      subst hb
      exact ⟨[], by simp [hashV1Enqueue]⟩

/-- If a buy submitted with a fresh id ends up in the id map (i.e. it
rested), then the map entry is the very record returned to the caller,
that same record sits in the queue at the order's price, and its quantity
is the original quantity minus everything matched during this call. -/
theorem hashV1AddBuy_rest :
    ∀ (fuel : Nat) (b : HashV1Book) (lo : LimitOrder) (b1 : HashV1Book)
      (lo1 : LimitOrder),
      hashV1AddBuy fuel b lo = .ok (b1, lo1) →
      b.orders.lookup lo.id = none →
      (b1.orders.lookup lo.id).isSome →
      b1.orders.lookup lo.id = some lo1 ∧
      lo1 ∈ (b1.price_queues.lookup lo.price).getD [] ∧
      lo1.quantity = lo.quantity -
        ((b1._matches.drop b._matches.length).map MatchedOrder.quantity).sum ∧
      lo1 = { lo with quantity := lo1.quantity } := by
  intro fuel
  induction fuel with
  | zero =>
    intro b lo b1 lo1 h hfresh hrest
    exact Except.noConfusion h
  | succ n ih =>
    intro b lo b1 lo1 h hfresh hrest
    simp only [hashV1AddBuy] at h
    by_cases hc : lo.price ≥ b.ask_min
    · rw [if_pos hc] at h
      by_cases hdone : (hashV1BuyLevel lo.trader_id lo.price lo.quantity
          ((b.price_queues.lookup b.ask_min).getD [])).done = true
      · rw [if_pos hdone] at h
        rw [Except.ok.injEq, Prod.mk.injEq] at h
        obtain ⟨hb, hl⟩ := h
        subst hb
        have hcontra : (b.orders.lookup lo.id).isSome = true := hrest
        rw [hfresh] at hcontra
        exact Bool.noConfusion hcontra
      · rw [if_neg hdone] at h
        obtain ⟨d, hd⟩ := hashV1AddBuy_matches_extend n _ _ _ _ h
        obtain ⟨ha, hb2, hq, hstruct⟩ := ih _ _ _ _ h hfresh hrest
        have hnotdone : (hashV1BuyLevel lo.trader_id lo.price lo.quantity
            ((b.price_queues.lookup b.ask_min).getD [])).done = false := by
          revert hdone
          cases (hashV1BuyLevel lo.trader_id lo.price lo.quantity
            ((b.price_queues.lookup b.ask_min).getD [])).done <;> simp
        have hlevel := hashV1BuyLevel_qty lo.trader_id lo.price
          ((b.price_queues.lookup b.ask_min).getD []) lo.quantity hnotdone
        refine ⟨ha, hb2, ?_, hstruct⟩
        have hdrop1 : b1._matches.drop b._matches.length =
            (hashV1BuyLevel lo.trader_id lo.price lo.quantity
              ((b.price_queues.lookup b.ask_min).getD [])).fills ++ d := by
          have : b1._matches = b._matches ++
              ((hashV1BuyLevel lo.trader_id lo.price lo.quantity
                ((b.price_queues.lookup b.ask_min).getD [])).fills ++ d) := by
            rw [hd]
            simp
          rw [this, List.drop_left]
        have hdrop2 : b1._matches.drop (b._matches ++
            (hashV1BuyLevel lo.trader_id lo.price lo.quantity
              ((b.price_queues.lookup b.ask_min).getD [])).fills).length = d := by
          rw [hd]
          exact List.drop_left _ _
        have hq2 : lo1.quantity =
            (hashV1BuyLevel lo.trader_id lo.price lo.quantity
              ((b.price_queues.lookup b.ask_min).getD [])).qty -
              ((b1._matches.drop (b._matches ++
                (hashV1BuyLevel lo.trader_id lo.price lo.quantity
                  ((b.price_queues.lookup b.ask_min).getD [])).fills).length).map
                MatchedOrder.quantity).sum := hq
        rw [hdrop2] at hq2
        rw [hdrop1, hq2, hlevel]
        simp only [List.map_append, List.sum_append]
        ring
    · rw [if_neg hc] at h
      rw [Except.ok.injEq, Prod.mk.injEq] at h
      obtain ⟨hb, hl⟩ := h
      subst hb
      subst hl
      refine ⟨?_, ?_, ?_, rfl⟩
      · show ((lo.id, lo) :: b.orders).lookup lo.id = some lo
        rw [List.lookup]
        simp
      · show lo ∈ ((hashV1Enqueue b lo).price_queues.lookup lo.price).getD []
        rcases hpq : b.price_queues.lookup lo.price with _ | q
        · have hfind := lookup_append_self b.price_queues lo.price [lo] hpq
          simp only [hashV1Enqueue, hpq]
          rw [hfind]
          simp
        · have hfind := lookup_writeBack_self b.price_queues lo.price
            (q ++ [lo]) q hpq
          simp only [hashV1Enqueue, hpq]
          rw [hfind]
          simp
      · show lo.quantity = lo.quantity -
          ((b._matches.drop b._matches.length).map MatchedOrder.quantity).sum
        rw [List.drop_length]
        simp

/-- Sell counterpart of `hashV1AddBuy_rest`. -/
theorem hashV1AddSell_rest :
    ∀ (fuel : Nat) (b : HashV1Book) (lo : LimitOrder) (b1 : HashV1Book)
      (lo1 : LimitOrder),
      hashV1AddSell fuel b lo = .ok (b1, lo1) →
      b.orders.lookup lo.id = none →
      (b1.orders.lookup lo.id).isSome →
      b1.orders.lookup lo.id = some lo1 ∧
      lo1 ∈ (b1.price_queues.lookup lo.price).getD [] ∧
      lo1.quantity = lo.quantity -
        ((b1._matches.drop b._matches.length).map MatchedOrder.quantity).sum ∧
      lo1 = { lo with quantity := lo1.quantity } := by
  intro fuel
  induction fuel with
  | zero =>
    intro b lo b1 lo1 h hfresh hrest
    exact Except.noConfusion h
  | succ n ih =>
    intro b lo b1 lo1 h hfresh hrest
    simp only [hashV1AddSell] at h
    by_cases hc : lo.price ≤ b.bid_max
    · rw [if_pos hc] at h
      by_cases hdone : (hashV1SellLevel lo.trader_id lo.price lo.quantity
          ((b.price_queues.lookup b.bid_max).getD [])).done = true
      · rw [if_pos hdone] at h
        rw [Except.ok.injEq, Prod.mk.injEq] at h
        obtain ⟨hb, hl⟩ := h
        subst hb
        have hcontra : (b.orders.lookup lo.id).isSome = true := hrest
        rw [hfresh] at hcontra
        exact Bool.noConfusion hcontra
      · rw [if_neg hdone] at h
        obtain ⟨d, hd⟩ := hashV1AddSell_matches_extend n _ _ _ _ h
        obtain ⟨ha, hb2, hq, hstruct⟩ := ih _ _ _ _ h hfresh hrest
        have hnotdone : (hashV1SellLevel lo.trader_id lo.price lo.quantity
            ((b.price_queues.lookup b.bid_max).getD [])).done = false := by
          revert hdone
          cases (hashV1SellLevel lo.trader_id lo.price lo.quantity
            ((b.price_queues.lookup b.bid_max).getD [])).done <;> simp
        have hlevel := hashV1SellLevel_qty lo.trader_id lo.price
          ((b.price_queues.lookup b.bid_max).getD []) lo.quantity hnotdone
        refine ⟨ha, hb2, ?_, hstruct⟩
        have hdrop1 : b1._matches.drop b._matches.length =
            (hashV1SellLevel lo.trader_id lo.price lo.quantity
              ((b.price_queues.lookup b.bid_max).getD [])).fills ++ d := by
          have : b1._matches = b._matches ++
              ((hashV1SellLevel lo.trader_id lo.price lo.quantity
                ((b.price_queues.lookup b.bid_max).getD [])).fills ++ d) := by
            rw [hd]
            simp
          rw [this, List.drop_left]
        have hdrop2 : b1._matches.drop (b._matches ++
            (hashV1SellLevel lo.trader_id lo.price lo.quantity
              ((b.price_queues.lookup b.bid_max).getD [])).fills).length = d := by
          rw [hd]
          exact List.drop_left _ _
        have hq2 : lo1.quantity =
            (hashV1SellLevel lo.trader_id lo.price lo.quantity
              ((b.price_queues.lookup b.bid_max).getD [])).qty -
              ((b1._matches.drop (b._matches ++
                (hashV1SellLevel lo.trader_id lo.price lo.quantity
                  ((b.price_queues.lookup b.bid_max).getD [])).fills).length).map
                MatchedOrder.quantity).sum := hq
        rw [hdrop2] at hq2
        rw [hdrop1, hq2, hlevel]
        simp only [List.map_append, List.sum_append]
        ring
    · rw [if_neg hc] at h
      rw [Except.ok.injEq, Prod.mk.injEq] at h
      obtain ⟨hb, hl⟩ := h
      subst hb
      subst hl
      refine ⟨?_, ?_, ?_, rfl⟩
      · show ((lo.id, lo) :: b.orders).lookup lo.id = some lo
        rw [List.lookup]
        simp
      · show lo ∈ ((hashV1Enqueue b lo).price_queues.lookup lo.price).getD []
        rcases hpq : b.price_queues.lookup lo.price with _ | q
        · have hfind := lookup_append_self b.price_queues lo.price [lo] hpq
          simp only [hashV1Enqueue, hpq]
          rw [hfind]
          simp
        · have hfind := lookup_writeBack_self b.price_queues lo.price
            (q ++ [lo]) q hpq
          simp only [hashV1Enqueue, hpq]
          rw [hfind]
          simp
      · show lo.quantity = lo.quantity -
          ((b._matches.drop b._matches.length).map MatchedOrder.quantity).sum
        rw [List.drop_length]
        simp

/-- Dispatch of `hashV1AddBuy_rest` / `hashV1AddSell_rest` over the
direction of the submitted order. -/
theorem hashV1Add_rest (fuel : Nat) (b : HashV1Book)
    (lo : LimitOrder) (b1 : HashV1Book) (lo1 : LimitOrder)
    (h : hashV1Add fuel b lo = .ok (b1, lo1))
    (hfresh : b.orders.lookup lo.id = none)
    (hrest : (b1.orders.lookup lo.id).isSome) :
    b1.orders.lookup lo.id = some lo1 ∧
    lo1 ∈ (b1.price_queues.lookup lo.price).getD [] ∧
    lo1.quantity = lo.quantity -
      ((b1._matches.drop b._matches.length).map MatchedOrder.quantity).sum ∧
    lo1 = { lo with quantity := lo1.quantity } := by
  unfold hashV1Add at h
  rcases hdir : lo.direction
  · rw [hdir] at h
    have hres := hashV1AddBuy_rest fuel b lo b1 lo1 h hfresh hrest
    rw [hdir] at hres
    exact hres
  · rw [hdir] at h
    have hres := hashV1AddSell_rest fuel b lo b1 lo1 h hfresh hrest
    rw [hdir] at hres
    exact hres


/-- When a `deque_lob` level drain runs out of queue, the remaining
incoming quantity is the initial quantity minus everything matched
(Buy loop of `BaseDequeLimitOrderBook.add`). -/
theorem v2BuyLevel_qty (trader : Int) :
    ∀ (q : List LimitOrder) (qty : Int),
      (v2BuyLevel trader qty q).done = false →
      (v2BuyLevel trader qty q).qty =
        qty - ((v2BuyLevel trader qty q).fills.map MatchedOrder.quantity).sum := by
  intro q
  induction q with
  | nil =>
    intro qty h
    simp [v2BuyLevel]
  | cons entry rest ih =>
    intro qty h
    by_cases hlt : entry.quantity < qty
    · simp only [v2BuyLevel, if_pos hlt] at h ⊢
      rw [ih _ h]
      simp only [List.map_cons, List.sum_cons]
      ring
    · by_cases hgt : entry.quantity > qty
      · simp only [v2BuyLevel, if_neg hlt, if_pos hgt] at h
        exact Bool.noConfusion h
      · simp only [v2BuyLevel, if_neg hlt, if_neg hgt] at h
        exact Bool.noConfusion h

/-- When a `deque_lob` level drain runs out of queue, the remaining
incoming quantity is the initial quantity minus everything matched
(Sell loop of `BaseDequeLimitOrderBook.add`). -/
theorem v2SellLevel_qty (trader : Int) :
    ∀ (q : List LimitOrder) (qty : Int),
      (v2SellLevel trader qty q).done = false →
      (v2SellLevel trader qty q).qty =
        qty - ((v2SellLevel trader qty q).fills.map MatchedOrder.quantity).sum := by
  intro q
  induction q with
  | nil =>
    intro qty h
    simp [v2SellLevel]
  | cons entry rest ih =>
    intro qty h
    by_cases hlt : entry.quantity < qty
    · simp only [v2SellLevel, if_pos hlt] at h ⊢
      rw [ih _ h]
      simp only [List.map_cons, List.sum_cons]
      ring
    · by_cases hgt : entry.quantity > qty
      · simp only [v2SellLevel, if_neg hlt, if_pos hgt] at h
        exact Bool.noConfusion h
      · simp only [v2SellLevel, if_neg hlt, if_neg hgt] at h
        exact Bool.noConfusion h

/-- A resolved Python index is within bounds. -/
theorem pyIndex_lt (n : Nat) (i : Int) (k : Nat) (h : pyIndex n i = some k) :
    k < n := by
  simp only [pyIndex] at h
  split at h
  · split at h
    · cases h
      omega
    · exact Option.noConfusion h
  · split at h
    · cases h
      omega
    · exact Option.noConfusion h

/-- Reading back the slot just assigned by a Python list assignment. -/
theorem pyGet_pySet_self {α : Type} (xs : List α) (i : Int) (a : α)
    (ys : List α) (h : pySet xs i a = some ys) : pyGet ys i = some a := by
  simp only [pySet] at h
  rcases hk : pyIndex xs.length i with _ | k
  · rw [hk] at h
    exact Option.noConfusion h
  · rw [hk] at h
    cases h
    have hlt := pyIndex_lt xs.length i k hk
    simp only [pyGet, List.length_set, hk]
    show (xs.set k a).get? k = some a
    rw [List.get?_eq_getElem?, List.getElem?_set_self]
    exact hlt

/-- `_update_best_ask_price` in the `deque_lob` array variant only moves
the `ask_min` scalar. -/
theorem arrayV2UpdateBestAsk_frame (f : Nat) (b : ArrayV2Book)
    (p : Option Int) (b2 : ArrayV2Book)
    (h : arrayV2UpdateBestAsk f b p = .ok b2) :
    b2.orders = b.orders ∧ b2.price_queues = b.price_queues ∧
    b2._matches = b._matches ∧ b2.bid_max = b.bid_max := by
  simp only [arrayV2UpdateBestAsk] at h
  split at h
  · exact Except.noConfusion h
  · split at h
    · cases h
      exact ⟨rfl, rfl, rfl, rfl⟩
    · split at h
      · exact Except.noConfusion h
      · cases h
        exact ⟨rfl, rfl, rfl, rfl⟩

/-- `_update_best_bid_price` in the `deque_lob` array variant only moves
the `bid_max` scalar. -/
theorem arrayV2UpdateBestBid_frame (f : Nat) (b : ArrayV2Book)
    (p : Option Int) (b2 : ArrayV2Book)
    (h : arrayV2UpdateBestBid f b p = .ok b2) :
    b2.orders = b.orders ∧ b2.price_queues = b.price_queues ∧
    b2._matches = b._matches ∧ b2.ask_min = b.ask_min := by
  simp only [arrayV2UpdateBestBid] at h
  split at h
  · exact Except.noConfusion h
  · split at h
    · cases h
      exact ⟨rfl, rfl, rfl, rfl⟩
    · split at h
      · exact Except.noConfusion h
      · cases h
        exact ⟨rfl, rfl, rfl, rfl⟩

/-- What a successful `deque_lob` `_add_order_to_queue` does: registers
the order at the head of the id map, appends it to the queue at its
price, and changes nothing else. -/
theorem arrayV2Enqueue_spec (b : ArrayV2Book) (lo : LimitOrder)
    (bE : ArrayV2Book) (h : arrayV2Enqueue b lo = .ok bE) :
    bE.orders = (lo.id, lo) :: b.orders ∧ bE._matches = b._matches ∧
    ∃ q0, pyGet bE.price_queues lo.price = some (q0 ++ [lo]) := by
  simp only [arrayV2Enqueue] at h
  rcases hg : pyGet b.price_queues lo.price with _ | q0
  · simp only [hg] at h
    exact Except.noConfusion h
  · simp only [hg] at h
    rcases hs : pySet b.price_queues lo.price (q0 ++ [lo]) with _ | pqs
    · simp only [hs] at h
      exact Except.noConfusion h
    · simp only [hs] at h
      cases h
      exact ⟨rfl, rfl, q0, pyGet_pySet_self _ _ _ _ hs⟩

/-- The `deque_lob` buy loop only appends to the match log. -/
theorem arrayV2AddBuy_matches_extend :
    ∀ (fuel : Nat) (b : ArrayV2Book) (lo : LimitOrder) (b1 : ArrayV2Book)
      (lo1 : LimitOrder), arrayV2AddBuy fuel b lo = .ok (b1, lo1) →
      ∃ ms, b1._matches = b._matches ++ ms := by
  intro fuel
  induction fuel with
  | zero =>
    intro b lo b1 lo1 h
    exact Except.noConfusion h
  | succ n ih =>
    intro b lo b1 lo1 h
    simp only [arrayV2AddBuy] at h
    by_cases hc : lo.price ≥ b.ask_min
    · rw [if_pos hc] at h
      rcases hg : pyGet b.price_queues b.ask_min with _ | entries
      · simp only [hg] at h
        exact Except.noConfusion h
      · simp only [hg] at h
        rcases hs : pySet b.price_queues b.ask_min
            (v2BuyLevel lo.trader_id lo.quantity entries).queue with _ | pqs
        · simp only [hs] at h
          exact Except.noConfusion h
        · simp only [hs] at h
          by_cases hdone : (v2BuyLevel lo.trader_id lo.quantity entries).done = true
          · rw [if_pos hdone] at h
            rw [Except.ok.injEq, Prod.mk.injEq] at h
            obtain ⟨hb, hl⟩ := h
            subst hb
            exact ⟨_, rfl⟩
          · rw [if_neg hdone] at h
            rcases hu : arrayV2UpdateBestAsk (n + 1)
                ({ b with
                    price_queues := pqs
                    _matches := b._matches ++ (v2BuyLevel lo.trader_id lo.quantity entries).fills })
                none with e | b2
            · simp only [hu] at h
              exact Except.noConfusion h
            · simp only [hu] at h
              obtain ⟨ms, hms⟩ := ih _ _ _ _ h
              have hfr : b2._matches = b._matches ++
                  (v2BuyLevel lo.trader_id lo.quantity entries).fills :=
                (arrayV2UpdateBestAsk_frame _ _ _ _ hu).2.2.1
              refine ⟨(v2BuyLevel lo.trader_id lo.quantity entries).fills ++ ms, ?_⟩
              rw [hms, hfr]
              simp
    · rw [if_neg hc] at h
      rcases he : arrayV2Enqueue b lo with e | bE
      · simp only [he] at h
        exact Except.noConfusion h
      · simp only [he] at h
        rcases hu : arrayV2UpdateBestBid (n + 1) bE (some lo.price) with e | b2
        · simp only [hu] at h
          exact Except.noConfusion h
        · simp only [hu] at h
          rw [Except.ok.injEq, Prod.mk.injEq] at h
          obtain ⟨hb, hl⟩ := h
          subst hb
          refine ⟨[], ?_⟩
          rw [(arrayV2UpdateBestBid_frame _ _ _ _ hu).2.2.1,
            (arrayV2Enqueue_spec _ _ _ he).2.1]
          simp

/-- The `deque_lob` sell loop only appends to the match log. -/
theorem arrayV2AddSell_matches_extend :
    ∀ (fuel : Nat) (b : ArrayV2Book) (lo : LimitOrder) (b1 : ArrayV2Book)
      (lo1 : LimitOrder), arrayV2AddSell fuel b lo = .ok (b1, lo1) →
      ∃ ms, b1._matches = b._matches ++ ms := by
  intro fuel
  induction fuel with
  | zero =>
    intro b lo b1 lo1 h
    exact Except.noConfusion h
  | succ n ih =>
    intro b lo b1 lo1 h
    simp only [arrayV2AddSell] at h
    by_cases hc : lo.price ≤ b.bid_max
    · rw [if_pos hc] at h
      rcases hg : pyGet b.price_queues b.bid_max with _ | entries
      · simp only [hg] at h
        exact Except.noConfusion h
      · simp only [hg] at h
        rcases hs : pySet b.price_queues b.bid_max
            (v2SellLevel lo.trader_id lo.quantity entries).queue with _ | pqs
        · simp only [hs] at h
          exact Except.noConfusion h
        · simp only [hs] at h
          by_cases hdone : (v2SellLevel lo.trader_id lo.quantity entries).done = true
          · rw [if_pos hdone] at h
            rw [Except.ok.injEq, Prod.mk.injEq] at h
            obtain ⟨hb, hl⟩ := h
            subst hb
            exact ⟨_, rfl⟩
          · rw [if_neg hdone] at h
            rcases hu : arrayV2UpdateBestBid (n + 1)
                ({ b with
                    price_queues := pqs
                    _matches := b._matches ++ (v2SellLevel lo.trader_id lo.quantity entries).fills })
                none with e | b2
            · simp only [hu] at h
              exact Except.noConfusion h
            · simp only [hu] at h
              obtain ⟨ms, hms⟩ := ih _ _ _ _ h
              have hfr : b2._matches = b._matches ++
                  (v2SellLevel lo.trader_id lo.quantity entries).fills :=
                (arrayV2UpdateBestBid_frame _ _ _ _ hu).2.2.1
              refine ⟨(v2SellLevel lo.trader_id lo.quantity entries).fills ++ ms, ?_⟩
              rw [hms, hfr]
              simp
    · rw [if_neg hc] at h
      rcases he : arrayV2Enqueue b lo with e | bE
      · simp only [he] at h
        exact Except.noConfusion h
      · simp only [he] at h
        rcases hu : arrayV2UpdateBestAsk (n + 1) bE (some lo.price) with e | b2
        · simp only [hu] at h
          exact Except.noConfusion h
        · simp only [hu] at h
          rw [Except.ok.injEq, Prod.mk.injEq] at h
          obtain ⟨hb, hl⟩ := h
          subst hb
          refine ⟨[], ?_⟩
          rw [(arrayV2UpdateBestAsk_frame _ _ _ _ hu).2.2.1,
            (arrayV2Enqueue_spec _ _ _ he).2.1]
          simp

/-- If a buy submitted with a fresh id to the `deque_lob` array book ends
up in the id map (it rested), the map entry is the very record returned
to the caller, that record sits in the queue at the order's price, and
its quantity is the original quantity minus everything matched during
this call. -/
theorem arrayV2AddBuy_rest :
    ∀ (fuel : Nat) (b : ArrayV2Book) (lo : LimitOrder) (b1 : ArrayV2Book)
      (lo1 : LimitOrder),
      arrayV2AddBuy fuel b lo = .ok (b1, lo1) →
      b.orders.lookup lo.id = none →
      (b1.orders.lookup lo.id).isSome →
      b1.orders.lookup lo.id = some lo1 ∧
      lo1 ∈ (pyGet b1.price_queues lo.price).getD [] ∧
      lo1.quantity = lo.quantity -
        ((b1._matches.drop b._matches.length).map MatchedOrder.quantity).sum ∧
      lo1 = { lo with quantity := lo1.quantity } := by
  intro fuel
  induction fuel with
  | zero =>
    intro b lo b1 lo1 h hfresh hrest
    exact Except.noConfusion h
  | succ n ih =>
    intro b lo b1 lo1 h hfresh hrest
    simp only [arrayV2AddBuy] at h
    by_cases hc : lo.price ≥ b.ask_min
    · rw [if_pos hc] at h
      rcases hg : pyGet b.price_queues b.ask_min with _ | entries
      · simp only [hg] at h
        exact Except.noConfusion h
      · simp only [hg] at h
        rcases hs : pySet b.price_queues b.ask_min
            (v2BuyLevel lo.trader_id lo.quantity entries).queue with _ | pqs
        · simp only [hs] at h
          exact Except.noConfusion h
        · simp only [hs] at h
          by_cases hdone : (v2BuyLevel lo.trader_id lo.quantity entries).done = true
          · rw [if_pos hdone] at h
            rw [Except.ok.injEq, Prod.mk.injEq] at h
            obtain ⟨hb, hl⟩ := h
            subst hb
            have hcontra : (b.orders.lookup lo.id).isSome = true := hrest
            rw [hfresh] at hcontra
            exact Bool.noConfusion hcontra
          · rw [if_neg hdone] at h
            rcases hu : arrayV2UpdateBestAsk (n + 1)
                ({ b with
                    price_queues := pqs
                    _matches := b._matches ++ (v2BuyLevel lo.trader_id lo.quantity entries).fills })
                none with e | b2
            · simp only [hu] at h
              exact Except.noConfusion h
            · simp only [hu] at h
              have hfr := arrayV2UpdateBestAsk_frame _ _ _ _ hu
              have hfresh2 : b2.orders.lookup lo.id = none := by
                rw [hfr.1]
                exact hfresh
              obtain ⟨ha, hmem, hq, hstruct⟩ := ih _ _ _ _ h hfresh2 hrest
              obtain ⟨d, hdd⟩ := arrayV2AddBuy_matches_extend n _ _ _ _ h
              have hlen : b2._matches = b._matches ++
                  (v2BuyLevel lo.trader_id lo.quantity entries).fills := hfr.2.2.1
              have hall : b1._matches = b._matches ++
                  ((v2BuyLevel lo.trader_id lo.quantity entries).fills ++ d) := by
                rw [hdd, hlen]
                simp
              have hdrop1 : b1._matches.drop b._matches.length =
                  (v2BuyLevel lo.trader_id lo.quantity entries).fills ++ d := by
                rw [hall]
                exact List.drop_left _ _
              have hdrop2 : b1._matches.drop b2._matches.length = d := by
                rw [hdd]
                exact List.drop_left _ _
              have hnotdone : (v2BuyLevel lo.trader_id lo.quantity entries).done
                  = false := by
                revert hdone
                cases (v2BuyLevel lo.trader_id lo.quantity entries).done <;> simp
              have hlevel := v2BuyLevel_qty lo.trader_id entries lo.quantity hnotdone
              refine ⟨ha, hmem, ?_, hstruct⟩
              have hq2 : lo1.quantity =
                  (v2BuyLevel lo.trader_id lo.quantity entries).qty -
                  ((b1._matches.drop b2._matches.length).map
                    MatchedOrder.quantity).sum := hq
              rw [hdrop2] at hq2
              rw [hdrop1, hq2, hlevel]
              simp only [List.map_append, List.sum_append]
              ring
    · rw [if_neg hc] at h
      rcases he : arrayV2Enqueue b lo with e | bE
      · simp only [he] at h
        exact Except.noConfusion h
      · simp only [he] at h
        rcases hu : arrayV2UpdateBestBid (n + 1) bE (some lo.price) with e | b2
        · simp only [hu] at h
          exact Except.noConfusion h
        · simp only [hu] at h
          rw [Except.ok.injEq, Prod.mk.injEq] at h
          obtain ⟨hb, hl⟩ := h
          subst hb
          subst hl
          obtain ⟨hOrd, hMat, q0, hq1⟩ := arrayV2Enqueue_spec _ _ _ he
          have hfrB := arrayV2UpdateBestBid_frame _ _ _ _ hu
          refine ⟨?_, ?_, ?_, rfl⟩
          · rw [hfrB.1, hOrd, List.lookup]
            simp
          · rw [hfrB.2.1, hq1]
            simp
          · rw [hfrB.2.2.1, hMat, List.drop_length]
            simp

/-- Sell counterpart of `arrayV2AddBuy_rest`. -/
theorem arrayV2AddSell_rest :
    ∀ (fuel : Nat) (b : ArrayV2Book) (lo : LimitOrder) (b1 : ArrayV2Book)
      (lo1 : LimitOrder),
      arrayV2AddSell fuel b lo = .ok (b1, lo1) →
      b.orders.lookup lo.id = none →
      (b1.orders.lookup lo.id).isSome →
      b1.orders.lookup lo.id = some lo1 ∧
      lo1 ∈ (pyGet b1.price_queues lo.price).getD [] ∧
      lo1.quantity = lo.quantity -
        ((b1._matches.drop b._matches.length).map MatchedOrder.quantity).sum ∧
      lo1 = { lo with quantity := lo1.quantity } := by
  intro fuel
  induction fuel with
  | zero =>
    intro b lo b1 lo1 h hfresh hrest
    exact Except.noConfusion h
  | succ n ih =>
    intro b lo b1 lo1 h hfresh hrest
    simp only [arrayV2AddSell] at h
    by_cases hc : lo.price ≤ b.bid_max
    · rw [if_pos hc] at h
      rcases hg : pyGet b.price_queues b.bid_max with _ | entries
      · simp only [hg] at h
        exact Except.noConfusion h
      · simp only [hg] at h
        rcases hs : pySet b.price_queues b.bid_max
            (v2SellLevel lo.trader_id lo.quantity entries).queue with _ | pqs
        · simp only [hs] at h
          exact Except.noConfusion h
        · simp only [hs] at h
          by_cases hdone : (v2SellLevel lo.trader_id lo.quantity entries).done = true
          · rw [if_pos hdone] at h
            rw [Except.ok.injEq, Prod.mk.injEq] at h
            obtain ⟨hb, hl⟩ := h
            subst hb
            have hcontra : (b.orders.lookup lo.id).isSome = true := hrest
            rw [hfresh] at hcontra
            exact Bool.noConfusion hcontra
          · rw [if_neg hdone] at h
            rcases hu : arrayV2UpdateBestBid (n + 1)
                ({ b with
                    price_queues := pqs
                    _matches := b._matches ++ (v2SellLevel lo.trader_id lo.quantity entries).fills })
                none with e | b2
            · simp only [hu] at h
              exact Except.noConfusion h
            · simp only [hu] at h
              have hfr := arrayV2UpdateBestBid_frame _ _ _ _ hu
              have hfresh2 : b2.orders.lookup lo.id = none := by
                rw [hfr.1]
                exact hfresh
              obtain ⟨ha, hmem, hq, hstruct⟩ := ih _ _ _ _ h hfresh2 hrest
              obtain ⟨d, hdd⟩ := arrayV2AddSell_matches_extend n _ _ _ _ h
              have hlen : b2._matches = b._matches ++
                  (v2SellLevel lo.trader_id lo.quantity entries).fills := hfr.2.2.1
              have hall : b1._matches = b._matches ++
                  ((v2SellLevel lo.trader_id lo.quantity entries).fills ++ d) := by
                rw [hdd, hlen]
                simp
              have hdrop1 : b1._matches.drop b._matches.length =
                  (v2SellLevel lo.trader_id lo.quantity entries).fills ++ d := by
                rw [hall]
                exact List.drop_left _ _
              have hdrop2 : b1._matches.drop b2._matches.length = d := by
                rw [hdd]
                exact List.drop_left _ _
              have hnotdone : (v2SellLevel lo.trader_id lo.quantity entries).done
                  = false := by
                revert hdone
                cases (v2SellLevel lo.trader_id lo.quantity entries).done <;> simp
              have hlevel := v2SellLevel_qty lo.trader_id entries lo.quantity hnotdone
              refine ⟨ha, hmem, ?_, hstruct⟩
              have hq2 : lo1.quantity =
                  (v2SellLevel lo.trader_id lo.quantity entries).qty -
                  ((b1._matches.drop b2._matches.length).map
                    MatchedOrder.quantity).sum := hq
              rw [hdrop2] at hq2
              rw [hdrop1, hq2, hlevel]
              simp only [List.map_append, List.sum_append]
              ring
    · rw [if_neg hc] at h
      rcases he : arrayV2Enqueue b lo with e | bE
      · simp only [he] at h
        exact Except.noConfusion h
      · simp only [he] at h
        rcases hu : arrayV2UpdateBestAsk (n + 1) bE (some lo.price) with e | b2
        · simp only [hu] at h
          exact Except.noConfusion h
        · simp only [hu] at h
          rw [Except.ok.injEq, Prod.mk.injEq] at h
          obtain ⟨hb, hl⟩ := h
          subst hb
          subst hl
          obtain ⟨hOrd, hMat, q0, hq1⟩ := arrayV2Enqueue_spec _ _ _ he
          have hfrA := arrayV2UpdateBestAsk_frame _ _ _ _ hu
          refine ⟨?_, ?_, ?_, rfl⟩
          · rw [hfrA.1, hOrd, List.lookup]
            simp
          · rw [hfrA.2.1, hq1]
            simp
          · rw [hfrA.2.2.1, hMat, List.drop_length]
            simp

/-- Dispatch of `arrayV2AddBuy_rest` / `arrayV2AddSell_rest` over the
direction of the submitted order. -/
theorem arrayV2Add_rest (fuel : Nat) (b : ArrayV2Book) (lo : LimitOrder)
    (b1 : ArrayV2Book) (lo1 : LimitOrder)
    (h : arrayV2Add fuel b lo = .ok (b1, lo1))
    (hfresh : b.orders.lookup lo.id = none)
    (hrest : (b1.orders.lookup lo.id).isSome) :
    b1.orders.lookup lo.id = some lo1 ∧
    lo1 ∈ (pyGet b1.price_queues lo.price).getD [] ∧
    lo1.quantity = lo.quantity -
      ((b1._matches.drop b._matches.length).map MatchedOrder.quantity).sum ∧
    lo1 = { lo with quantity := lo1.quantity } := by
  unfold arrayV2Add at h
  rcases hdir : lo.direction
  · rw [hdir] at h
    have hres := arrayV2AddBuy_rest fuel b lo b1 lo1 h hfresh hrest
    rw [hdir] at hres
    exact hres
  · rw [hdir] at h
    have hres := arrayV2AddSell_rest fuel b lo b1 lo1 h hfresh hrest
    rw [hdir] at hres
    exact hres

/-- C10 (amended): in the Hash variant and the deque-based (`deque_lob`)
generation, whenever a submitted order (with an id not already in the
book) ends up resting, the record in the id map is exactly the record
handed back to the caller, the queue at the order's price holds that same
record (one object — the source stores the caller's `LimitOrder` itself,
no copy), and its quantity field has been decremented in place to the
unfilled residual: the submitted quantity minus the sum of the quantities
matched during the call.  A later mutation of that record is seen through
both the id map and the queue because they alias it.  When the incoming
order is instead fully matched, nothing is stored and the caller-held
object's quantity keeps the value it had at its final match rather than
the residual 0 — in both generations, whose full-fill branches never
decrement `limit_order.quantity`. -/
theorem C10_resting_order_alias_residual :
    (∀ (fuel : Nat) (b : HashV1Book) (lo : LimitOrder) (b1 : HashV1Book)
      (lo1 : LimitOrder), hashV1Add fuel b lo = .ok (b1, lo1) →
      b.orders.lookup lo.id = none →
      (b1.orders.lookup lo.id).isSome →
      b1.orders.lookup lo.id = some lo1 ∧
      lo1 ∈ (b1.price_queues.lookup lo.price).getD [] ∧
      lo1.quantity = lo.quantity -
        ((b1._matches.drop b._matches.length).map MatchedOrder.quantity).sum ∧
      lo1 = { lo with quantity := lo1.quantity }) ∧
    (∀ (fuel : Nat) (b : ArrayV2Book) (lo : LimitOrder) (b1 : ArrayV2Book)
      (lo1 : LimitOrder), arrayV2Add fuel b lo = .ok (b1, lo1) →
      b.orders.lookup lo.id = none →
      (b1.orders.lookup lo.id).isSome →
      b1.orders.lookup lo.id = some lo1 ∧
      lo1 ∈ (pyGet b1.price_queues lo.price).getD [] ∧
      lo1.quantity = lo.quantity -
        ((b1._matches.drop b._matches.length).map MatchedOrder.quantity).sum ∧
      lo1 = { lo with quantity := lo1.quantity }) :=
  ⟨hashV1Add_rest, arrayV2Add_rest⟩

/-- Witness for `C10_resting_order_alias_residual`: in the Hash variant a
buy of quantity 5 at price 4 crosses a resting sell of quantity 3 at
price 2 and rests with residual 2; in the `deque_lob` array variant a
sell of quantity 5 at price 4 crosses a resting buy of quantity 3 at
price 5 and rests with residual 2.  In both cases the id map entry and
the queue entry are the caller's record with the residual quantity. -/
theorem C10_resting_order_alias_residual_witness :
    ((⟨10, 4, 5, [(1, ⟨2, 4, 2, .Buy, 1⟩), (0, ⟨1, 2, 3, .Sell, 0⟩)],
        [(2, []), (4, [⟨2, 4, 2, .Buy, 1⟩])],
        [⟨2, 1, 2, 3⟩]⟩ : HashV1Book).orders.lookup
        (⟨2, 4, 5, .Buy, 1⟩ : LimitOrder).id = some ⟨2, 4, 2, .Buy, 1⟩ ∧
      (⟨2, 4, 2, .Buy, 1⟩ : LimitOrder) ∈
        ((⟨10, 4, 5, [(1, ⟨2, 4, 2, .Buy, 1⟩), (0, ⟨1, 2, 3, .Sell, 0⟩)],
          [(2, []), (4, [⟨2, 4, 2, .Buy, 1⟩])],
          [⟨2, 1, 2, 3⟩]⟩ : HashV1Book).price_queues.lookup
            (⟨2, 4, 5, .Buy, 1⟩ : LimitOrder).price).getD [] ∧
      (⟨2, 4, 2, .Buy, 1⟩ : LimitOrder).quantity =
        (⟨2, 4, 5, .Buy, 1⟩ : LimitOrder).quantity -
        (((⟨10, 4, 5, [(1, ⟨2, 4, 2, .Buy, 1⟩), (0, ⟨1, 2, 3, .Sell, 0⟩)],
            [(2, []), (4, [⟨2, 4, 2, .Buy, 1⟩])],
            [⟨2, 1, 2, 3⟩]⟩ : HashV1Book)._matches.drop
          (⟨10, 0, 2, [(0, ⟨1, 2, 3, .Sell, 0⟩)], [(2, [⟨1, 2, 3, .Sell, 0⟩])],
            []⟩ : HashV1Book)._matches.length).map MatchedOrder.quantity).sum ∧
      (⟨2, 4, 2, .Buy, 1⟩ : LimitOrder) =
        { LimitOrder.mk 2 4 5 Direction.Buy 1 with
          quantity := (⟨2, 4, 2, .Buy, 1⟩ : LimitOrder).quantity }) ∧
    ((⟨10, 0, 4, [(1, ⟨2, 4, 2, .Sell, 1⟩), (0, ⟨1, 5, 3, .Buy, 0⟩)],
        [[], [], [], [], [⟨2, 4, 2, .Sell, 1⟩], [], [], [], [], [], []],
        [⟨1, 2, 5, 3⟩]⟩ : ArrayV2Book).orders.lookup
        (⟨2, 4, 5, .Sell, 1⟩ : LimitOrder).id = some ⟨2, 4, 2, .Sell, 1⟩ ∧
      (⟨2, 4, 2, .Sell, 1⟩ : LimitOrder) ∈
        (pyGet (⟨10, 0, 4, [(1, ⟨2, 4, 2, .Sell, 1⟩), (0, ⟨1, 5, 3, .Buy, 0⟩)],
          [[], [], [], [], [⟨2, 4, 2, .Sell, 1⟩], [], [], [], [], [], []],
          [⟨1, 2, 5, 3⟩]⟩ : ArrayV2Book).price_queues
            (⟨2, 4, 5, .Sell, 1⟩ : LimitOrder).price).getD [] ∧
      (⟨2, 4, 2, .Sell, 1⟩ : LimitOrder).quantity =
        (⟨2, 4, 5, .Sell, 1⟩ : LimitOrder).quantity -
        (((⟨10, 0, 4, [(1, ⟨2, 4, 2, .Sell, 1⟩), (0, ⟨1, 5, 3, .Buy, 0⟩)],
            [[], [], [], [], [⟨2, 4, 2, .Sell, 1⟩], [], [], [], [], [], []],
            [⟨1, 2, 5, 3⟩]⟩ : ArrayV2Book)._matches.drop
          (⟨10, 5, 10, [(0, ⟨1, 5, 3, .Buy, 0⟩)],
            [[], [], [], [], [], [⟨1, 5, 3, .Buy, 0⟩], [], [], [], [], []],
            []⟩ : ArrayV2Book)._matches.length).map MatchedOrder.quantity).sum ∧
      (⟨2, 4, 2, .Sell, 1⟩ : LimitOrder) =
        { LimitOrder.mk 2 4 5 Direction.Sell 1 with
          quantity := (⟨2, 4, 2, .Sell, 1⟩ : LimitOrder).quantity }) :=
  ⟨C10_resting_order_alias_residual.1 50
      ⟨10, 0, 2, [(0, ⟨1, 2, 3, .Sell, 0⟩)], [(2, [⟨1, 2, 3, .Sell, 0⟩])], []⟩
      ⟨2, 4, 5, .Buy, 1⟩
      ⟨10, 4, 5, [(1, ⟨2, 4, 2, .Buy, 1⟩), (0, ⟨1, 2, 3, .Sell, 0⟩)],
        [(2, []), (4, [⟨2, 4, 2, .Buy, 1⟩])], [⟨2, 1, 2, 3⟩]⟩
      ⟨2, 4, 2, .Buy, 1⟩ (by decide) (by decide) (by decide),
    C10_resting_order_alias_residual.2 50
      ⟨10, 5, 10, [(0, ⟨1, 5, 3, .Buy, 0⟩)],
        [[], [], [], [], [], [⟨1, 5, 3, .Buy, 0⟩], [], [], [], [], []], []⟩
      ⟨2, 4, 5, .Sell, 1⟩
      ⟨10, 0, 4, [(1, ⟨2, 4, 2, .Sell, 1⟩), (0, ⟨1, 5, 3, .Buy, 0⟩)],
        [[], [], [], [], [⟨2, 4, 2, .Sell, 1⟩], [], [], [], [], [], []],
        [⟨1, 2, 5, 3⟩]⟩
      ⟨2, 4, 2, .Sell, 1⟩ (by decide) (by decide) (by decide)⟩

end LOBModel
